import Mathlib

/-!
Verification development for the `polymer-model` reactive Store engine.

The JavaScript sources embedded here:
  * `src/property-accessors.js` — accessor layer, pending buffer, change detection
  * `src/property-effects.js`   — effect registry, expression parser, path API,
                                  array mutators, splice notification
  * `src/batched-effects.js`    — batched change cycle (compute fixpoint,
                                  linked paths, notify, observers)
  * `src/store.js`              — Store facade built from a configuration map
  * `src/utils.js`              — `mixin` (for..in copy)

`src/path.js` is required by the sources but is not part of the provided
tree; its operations are modelled from the specification (section 4.1) and
are marked `Modelled from the spec:` below.

Modelling conventions:
  * JavaScript values are the inductive `JSVal`.  Numbers are rationals plus
    a separate `nan` constructor (no floating point subtleties are needed by
    the verified properties; `NaN` participates only through strict
    (in)equality, which the model captures exactly).
  * JavaScript objects used as dictionaries (`__data`, `__dataPending`, ...)
    are insertion-ordered association lists (`JSObj`); `for..in` iteration is
    list order, matching JS insertion-order enumeration for string keys.
  * Object identity: the engine never branches on identity of two objects in
    the verified code paths (`_shouldPropChange` treats every object as a
    change before identity could matter), so `strictEq` conservatively
    returns `false` on object/array pairs, matching the common case of
    freshly allocated records.
  * In-place mutation of a nested tree reached through a path is modelled by
    a functional write-back along the same path.  No two live paths alias
    one object in any verified scenario.
  * Observer and method callbacks are recorded in an event `trace` (newest
    event first); method results come from a pure `methods` table.  Because
    modelled callbacks do not write back into the store, the re-entrancy
    guard (`runId` / interim buffers) always commits in the model; it is
    still translated faithfully.
  * The compute fixpoint loop of `runComputedEffects` is the only unbounded
    loop; it is given explicit fuel, and `Res.fuelOut` marks a run that did
    not finish within the fuel.  `Res.throw` models a thrown `TypeError`.
-/

/-- JavaScript runtime value, as used by the store engine. -/
inductive JSVal where
  | undef : JSVal
  | null : JSVal
  | bool (b : Bool) : JSVal
  | num (q : ℚ) : JSVal
  | nan : JSVal
  | str (s : String) : JSVal
  | obj (fields : List (String × JSVal)) : JSVal
  | arr (elems : List JSVal) : JSVal
deriving Inhabited

mutual

/-- Structural (Boolean) equality on modelled JS values. -/
def jsvalBeq : JSVal → JSVal → Bool
  | .undef, .undef => true
  | .null, .null => true
  | .bool x, .bool y => x == y
  | .num x, .num y => x == y
  | .nan, .nan => true
  | .str x, .str y => x == y
  | .obj x, .obj y => jsobjBeq x y
  | .arr x, .arr y => jslistBeq x y
  | _, _ => false

/-- Structural equality on value lists (array elements). -/
def jslistBeq : List JSVal → List JSVal → Bool
  | [], [] => true
  | a :: as, b :: bs => jsvalBeq a b && jslistBeq as bs
  | _, _ => false

/-- Structural equality on field lists (object entries). -/
def jsobjBeq : List (String × JSVal) → List (String × JSVal) → Bool
  | [], [] => true
  | (k, v) :: as, (k', v') :: bs => k == k' && jsvalBeq v v' && jsobjBeq as bs
  | _, _ => false

end

/-- Insertion-ordered JavaScript dictionary (plain object used as a map). -/
abbrev JSObj := List (String × JSVal)

/-- Dictionary lookup; a missing key reads as `undefined`, like JS. -/
def JSObj.get (o : JSObj) (k : String) : JSVal :=
  match o with
  | [] => .undef
  | (k', v) :: rest => if k' == k then v else JSObj.get rest k

/-- The JS `in` operator: key presence (even when the value is undefined). -/
def JSObj.hasKey (o : JSObj) (k : String) : Bool :=
  match o with
  | [] => false
  | (k', _) :: rest => k' == k || JSObj.hasKey rest k

/-- Assignment `o[k] = v`: an existing key keeps its position, a new key is
appended, matching JS enumeration order. -/
def JSObj.set (o : JSObj) (k : String) (v : JSVal) : JSObj :=
  match o with
  | [] => [(k, v)]
  | (k', v') :: rest =>
    if k' == k then (k', v) :: rest else (k', v') :: JSObj.set rest k v

/-- Translation of `utils.mixin(target, source)`: copy every enumerable
property of `source` onto `target` (overwriting). -/
def mixin (target source : JSObj) : JSObj :=
  source.foldl (fun t kv => t.set kv.1 kv.2) target

/-- Value of `source[k]` when `source` may be `null` (`for..in null` iterates
nothing, and `oldProps && oldProps[prop]` guards reads). -/
def JSObj.getO (o : Option JSObj) (k : String) : JSVal :=
  match o with
  | none => .undef
  | some o => o.get k

namespace Path

/-- Modelled from the spec: `root(path)` — substring up to the first `.`,
or the whole string when there is no dot (section 4.1, `path.js` missing). -/
def root (path : String) : String :=
  String.mk (path.toList.takeWhile (fun c => c ≠ '.'))

/-- Modelled from the spec: `isDeep(path)` — the path contains a `.`. -/
def isDeep (path : String) : Bool :=
  path.toList.contains '.'

/-- Modelled from the spec: `isDescendant(parent, candidate)` — true iff
`candidate` equals `parent` or starts with `parent + '.'`. -/
def isDescendant (parent candidate : String) : Bool :=
  candidate == parent || (parent ++ ".").toList.isPrefixOf candidate.toList

/-- Modelled from the spec: `translate(fromPrefix, toPrefix, path)` —
replace a leading `fromPrefix` in `path` with `toPrefix`. -/
def translate (fromPrefix toPrefix path : String) : String :=
  toPrefix ++ String.mk (path.toList.drop fromPrefix.toList.length)

/-- Dot-splitting of a character list (structural `splitOn "."`). -/
def splitChars (l : List Char) : List (List Char) :=
  match l with
  | [] => [[]]
  | '.' :: rest => [] :: splitChars rest
  | c :: rest =>
    match splitChars rest with
    | [] => [[c]]
    | p :: ps => (c :: p) :: ps

/-- Path splitting on `.` used by the tree walkers. -/
def split (path : String) : List String :=
  (splitChars path.toList).map String.mk

/-- Modelled from the spec: `matches(effectPath, concretePath)` — an effect
path matches its own path and every descendant; a wildcard path `b.*`
matches the base `b` and every descendant of `b` (but not `b`'s peers).
The descendant direction is fixed by the repository's test expectations
(an observer registered on `tourists` fires for `tourists.splices`). -/
def matchesPath (effectPath concretePath : String) : Bool :=
  if effectPath.toList.reverse.take 2 == ['*', '.'] then
    isDescendant (String.mk (effectPath.toList.dropLast.dropLast)) concretePath
  else
    effectPath == concretePath || isDescendant effectPath concretePath

end Path

/-- JS `typeof v == 'object'`: true for plain objects, arrays and `null`. -/
def typeofObject (v : JSVal) : Bool :=
  match v with
  | .null | .obj _ | .arr _ => true
  | _ => false

/-- JS strict equality `===` on the modelled values.  `NaN` is not equal to
itself.  Object/array comparisons are identity comparisons in JS; the model
uses structural equality there.  This is faithful wherever the engine uses
`===`: the self-tests `old === old` / `value === value` compare a value
with itself (structural equality is reflexive, matching identity), and an
object result of `old !== value` is absorbed by the
`typeof value == 'object'` branch of the change predicate. -/
def strictEq (a b : JSVal) : Bool :=
  match a, b with
  | .undef, .undef => true
  | .null, .null => true
  | .bool x, .bool y => x == y
  | .num x, .num y => x == y
  | .str x, .str y => x == y
  | .obj x, .obj y => jsobjBeq x y
  | .arr x, .arr y => jslistBeq x y
  | _, _ => false

/-- Translation of `PropertyAccessors._shouldPropChange(property, value, old)`:
`(old !== value && (old === old || value === value)) || (typeof value == 'object')`. -/
def shouldPropChange (property : String) (value old : JSVal) : Bool :=
  let _ := property
  (!(strictEq old value) && (strictEq old old || strictEq value value)) ||
    typeofObject value


/-- Result of a modelled operation: normal value, thrown JS `TypeError`
(e.g. reading `.length` of `undefined`), or fuel exhaustion of the compute
fixpoint loop (the JS loop is unbounded). -/
inductive Res (α : Type) where
  | ok (a : α) : Res α
  | thrown (msg : String) : Res α
  | fuelOut : Res α
deriving Inhabited

/-- Sequencing for `Res`. -/
def Res.bind {α β : Type} (r : Res α) (f : α → Res β) : Res β :=
  match r with
  | .ok a => f a
  | .thrown m => .thrown m
  | .fuelOut => .fuelOut

/-- Argument metadata produced by `parseArg` (property-effects.js). -/
structure ArgDesc where
  name : String
  value : JSVal := .undef
  literal : Bool := false
  structured : Bool := false
  rootProperty : String := ""
  wildcard : Bool := false
deriving Inhabited

/-- Which effect function (`fx.fn`) an effect dispatches to. -/
inductive EffKind where
  | observer : EffKind
  | methodObserver : EffKind
  | computed : EffKind
deriving Inhabited, DecidableEq

/-- One registered property effect.  `infoId` indexes the shared, mutable
`info.lastRun` stamp (method effects registered on several argument roots
share one `info` object in JS, hence one id here). -/
structure Effect where
  path : String
  kind : EffKind
  infoId : Option Nat := none
  methodName : String := ""
  args : List ArgDesc := []
  methodInfo : Option String := none
  dynamicFn : Bool := false
deriving Inhabited

/-- Per-type effect registry: root property name to its effect list. -/
abbrev EffMap := List (String × List Effect)

/-- Lookup in an effect registry. -/
def EffMap.find (m : EffMap) (k : String) : Option (List Effect) :=
  match m with
  | [] => none
  | (k', v) :: rest => if k' == k then some v else EffMap.find rest k

/-- Registry update (existing bucket replaced in place, new bucket appended). -/
def EffMap.set (m : EffMap) (k : String) (v : List Effect) : EffMap :=
  match m with
  | [] => [(k, v)]
  | (k', v') :: rest =>
    if k' == k then (k', v) :: rest else (k', v') :: EffMap.set rest k v

/-- Trace events recorded while running the engine.  JS side effects that
leave the store (observer calls, method calls, console warnings) and the
instrumented dispatch / flush-delivery points. -/
inductive TraceEv where
  | observe (method : String) (value old : JSVal) (prop : String) : TraceEv
  | call (method : String) (args : List JSVal) : TraceEv
  | warn (method : String) : TraceEv
  | dispatch (infoId : Option Nat) (path prop : String) : TraceEv
  | flushChanged (props : JSObj) : TraceEv
deriving Inhabited

/-- The whole instance state of a Store (fields named after the JS slots;
the leading `__data` prefix is shortened).  `effectUid` is a module-level
counter in JS; the model keeps it per store (all verified scenarios use a
single store).  `stamps` holds each shared info's `lastRun`. -/
structure Store where
  data : JSObj := []
  fields : JSObj := []
  dataPending : Option JSObj := none
  dataOld : Option JSObj := none
  dataInvalid : Bool := false
  dataInitialized : Bool := false
  asyncEffects : Bool := false
  dataFromAbove : Bool := false
  dataLinkedPaths : Option (List (String × String)) := none
  dataPendingClients : Bool := false
  dataInterim : Option JSObj := none
  dataInterimOld : Option JSObj := none
  runId : Nat := 0
  effectUid : Nat := 0
  anyMap : Option EffMap := none
  computeMap : Option EffMap := none
  observeMap : Option EffMap := none
  roMap : Option (List (String × Nat)) := none
  nextInfoId : Nat := 0
  stamps : Nat → Option Nat := fun _ => none
  internalSetters : List String := []
  methods : String → Option (List JSVal → JSVal) := fun _ => none
  trace : List TraceEv := []

instance : Inhabited Store := ⟨{}⟩

/-- Push one trace event (newest first). -/
def Store.push (s : Store) (ev : TraceEv) : Store :=
  { s with trace := ev :: s.trace }

/-- Translation of `PropertyEffects._hasPropertyEffect(property)` with the
default `ANY` type: the bucket exists (an empty bucket array is truthy). -/
def Store.hasAnyEffect (s : Store) (property : String) : Bool :=
  match s.anyMap with
  | none => false
  | some m => (m.find property).isSome

/-- Translation of `_hasPropertyEffect(property, READ_ONLY)` /
`_hasReadOnlyEffect`. -/
def Store.hasReadOnlyEffect (s : Store) (property : String) : Bool :=
  match s.roMap with
  | none => false
  | some m => (m.lookup property).isSome

/-- Translation of `_hasPropertyEffect(property, COMPUTE)` /
`_hasComputedEffect`. -/
def Store.hasComputedEffect (s : Store) (property : String) : Bool :=
  match s.computeMap with
  | none => false
  | some m => (m.find property).isSome

/-- Translation of `PropertyEffects._setPendingProperty(prop, value)`
(which first clears locally cached descendant paths when an object value is
set) together with the base `PropertyAccessors._setPendingProperty`
(change detection, first-write old-value capture, data/pending update). -/
def Store.setPendingProperty (s : Store) (prop : String) (value : JSVal) :
    Store × Bool :=
  -- PropertyEffects override: clear cached paths under `prop`
  let s :=
    if typeofObject value then
      { s with data := s.data.map (fun kv =>
          if Path.isDescendant prop kv.1 then (kv.1, JSVal.undef) else kv) }
    else s
  -- PropertyAccessors base implementation
  let old := s.data.get prop
  if shouldPropChange prop value old then
    let s :=
      if s.dataPending.isNone then
        { s with dataPending := some [], dataOld := some [] }
      else s
    let oldMap := s.dataOld.getD []
    let s :=
      if oldMap.hasKey prop then s
      else { s with dataOld := some (oldMap.set prop old) }
    ({ s with
        data := s.data.set prop value,
        dataPending := some ((s.dataPending.getD []).set prop value) }, true)
  else (s, false)

/-- Translation of `BatchedEffects._setPropertyFromComputation(prop, value)`:
route through the pending buffer when the property is managed, otherwise
assign a plain instance field. -/
def Store.setPropertyFromComputation (s : Store) (prop : String)
    (value : JSVal) : Store :=
  if s.hasAnyEffect prop then (s.setPendingProperty prop value).1
  else { s with fields := s.fields.set prop value }

/-- Numeric parse of an array-index segment (structural `toNat?`). -/
def segToNat (seg : String) : Option Nat :=
  let l := seg.toList
  if !l.isEmpty && l.all Char.isDigit then
    some (l.foldl (fun acc c => 10 * acc + (c.toNat - '0'.toNat)) 0)
  else none

/-- One step of a JS property read `container[seg]`: object field, or array
element for a numeric segment (other array segments read as `undefined`;
no verified property reads `length` through a path). -/
def containerGet (v : JSVal) (seg : String) : JSVal :=
  match v with
  | .obj o => JSObj.get o seg
  | .arr a =>
    match segToNat seg with
    | some i => a.getD i .undef
    | none => .undef
  | _ => JSVal.undef

/-- Array element assignment `a[i] = v`; JS extends the array when `i` is
past the end (holes modelled as `undefined`). -/
def arrSet (a : List JSVal) (i : Nat) (v : JSVal) : List JSVal :=
  if i < a.length then a.set i v
  else a ++ List.replicate (i - a.length) .undef ++ [v]

/-- One step of a JS property write `container[seg] = v`. -/
def containerSet (v : JSVal) (seg : String) (w : JSVal) : JSVal :=
  match v with
  | .obj o => .obj (JSObj.set o seg w)
  | .arr a =>
    match segToNat seg with
    | some i => .arr (arrSet a i w)
    | none => v
  | _ => v

/-- Modelled from the spec: the segment walk of `Path.get` — `undefined` on
any missing segment. -/
def walkPath (v : JSVal) (segs : List String) : JSVal :=
  match segs with
  | [] => v
  | seg :: rest => walkPath (containerGet v seg) rest

/-- Instance property read `this[name]`: through the accessor (`__data`)
when the property is managed, else a plain instance field. -/
def Store.instGet (s : Store) (name : String) : JSVal :=
  if s.hasAnyEffect name then s.data.get name else s.fields.get name

/-- Modelled from the spec: `Path.get(root, path)` with the instance as
root.  The first segment goes through the accessor layer. -/
def Store.pathGet (s : Store) (path : String) : JSVal :=
  match Path.split path with
  | [] => .undef
  | p0 :: rest => walkPath (s.instGet p0) rest

/-- Modelled from the spec: `Path.get(data, path)` with a plain object as
root (used by `marshalArgs` on `__data`). -/
def pathGetData (data : JSObj) (path : String) : JSVal :=
  match Path.split path with
  | [] => .undef
  | p0 :: rest => walkPath (data.get p0) rest

/-- Modelled from the spec: the nested write of `Path.set` below the root —
walks all but the last segment, gives up (`none`) when an intermediate is
missing, else assigns the leaf.  A non-container leaf owner also yields
`none` (never reached by the verified scenarios). -/
def setIn (container : JSVal) (segs : List String) (v : JSVal) :
    Option JSVal :=
  match segs with
  | [] => none
  | [last] =>
    match container with
    | .obj _ | .arr _ => some (containerSet container last v)
    | _ => none
  | seg :: rest =>
    match setIn (containerGet container seg) rest v with
    | none => none
    | some sub => some (containerSet container seg sub)

/-- Update of the root binding reached by a path's first segment: managed
roots live in `__data` (the accessor's storage), unmanaged roots are plain
instance fields.  Models in-place mutation of the referenced tree. -/
def Store.writeRoot (s : Store) (p0 : String) (v : JSVal) : Store :=
  if s.hasAnyEffect p0 then { s with data := s.data.set p0 v }
  else { s with fields := s.fields.set p0 v }

/-- Modelled from the spec: `Path.set(this, path, value)` — returns the
normalized path on success, `none` when an intermediate is missing.
Single-segment writes only occur for unmanaged roots at the translated call
sites (`_setPathOrUnmanagedProperty` skips `Path.set` for a managed
root-only path). -/
def Store.pathSet (s : Store) (path : String) (value : JSVal) :
    Store × Option String :=
  match Path.split path with
  | [] => (s, none)
  | [_] => (s.writeRoot path value, some path)
  | p0 :: rest =>
    match setIn (s.instGet p0) rest value with
    | none => (s, none)
    | some c0 => (s.writeRoot p0 c0, some path)

/-- Pure tree write-back along a path whose containers are known to exist
(models JS in-place mutation of an array obtained through `Path.get`). -/
def Store.writeBack (s : Store) (path : String) (v : JSVal) : Store :=
  match Path.split path with
  | [] => s
  | [_] => s.writeRoot path v
  | p0 :: rest =>
    match setIn (s.instGet p0) rest v with
    | none => s
    | some c0 => s.writeRoot p0 c0

/-- Translation of `marshalArgs(data, args, path, value)`
(property-effects.js): literal values pass through, the triggering path
reads the triggering value, other names read `__data` (falling back to a
tree walk for structured paths), and wildcard arguments are wrapped as
`{path, value, base}` records. -/
def marshalArgs (data : JSObj) (args : List ArgDesc) (path : String)
    (value : JSVal) : List JSVal :=
  args.map (fun arg =>
    let name := arg.name
    let v :=
      if arg.literal then arg.value
      else if path == name then value
      else
        let v0 := data.get name
        match v0, arg.structured with
        | .undef, true => pathGetData data name
        | _, _ => v0
    if arg.wildcard then
      -- only send the actual changed-path info when the change matched
      -- the wildcard (and was not the base itself changing)
      let baseChanged := (path ++ ".").toList.isPrefixOf name.toList
      let m := name.toList.isPrefixOf path.toList && !baseChanged
      .obj [("path", .str (if m then path else name)),
            ("value", if m then value else v),
            ("base", v)]
    else v)

/-- Translation of `runMethodEffect(inst, property, value, old, info)`:
marshal the arguments from `__data`, record the call, and apply the method
from the instance's method table; a missing non-dynamic method only warns. -/
def Store.runMethodEffect (s : Store) (fx : Effect) (prop : String)
    (value : JSVal) : Store × JSVal :=
  match s.methods fx.methodName with
  | some f =>
    let argv := marshalArgs s.data fx.args prop value
    ((s.push (.call fx.methodName argv)), f argv)
  | none =>
    if fx.dynamicFn then (s, .undef)
    else ((s.push (.warn fx.methodName)), .undef)

/-- Dispatch of one effect function (`fx.fn`): `runObserverEffect`,
`runMethodObserverEffect` or `runComputedEffect` from property-effects.js.
Observer callbacks are recorded in the trace with `(value, old, property)`. -/
def Store.runFx (s : Store) (fx : Effect) (prop : String) (value old : JSVal) :
    Store :=
  match fx.kind with
  | .observer =>
    match s.methods fx.methodName with
    | some _ => s.push (.observe fx.methodName value old prop)
    | none => s.push (.warn fx.methodName)
  | .methodObserver => (s.runMethodEffect fx prop value).1
  | .computed =>
    let (s, result) := s.runMethodEffect fx prop value
    s.setPropertyFromComputation (fx.methodInfo.getD "") result

/-- One dispatched effect inside `runEffectsForProperty`: record the
dispatch, call `fx.fn(inst, prop, inst.__data[prop], old, fx.info)`, and
stamp `info.lastRun = id` when the effect carries an info block. -/
def Store.dispatchFx (s : Store) (fx : Effect) (id : Nat) (prop : String)
    (old : JSVal) : Store :=
  let s := s.push (.dispatch fx.infoId fx.path prop)
  let s := s.runFx fx prop (s.data.get prop) old
  match fx.infoId with
  | none => s
  | some i =>
    { s with stamps := fun j => if j = i then some id else s.stamps j }

/-- Inner loop of `runEffectsForProperty` (batched-effects.js): run every
effect whose path matches, skipping effects whose shared `info.lastRun`
already carries the current pass id, and stamping the id after a run. -/
def Store.runFxList (s : Store) (fxs : List Effect) (id : Nat) (prop : String)
    (old : JSVal) : Store × Bool :=
  match fxs with
  | [] => (s, false)
  | fx :: rest =>
    if Path.matchesPath fx.path prop &&
        (match fx.infoId with
         | none => true
         | some i => s.stamps i != some id) then
      let s := s.dispatchFx fx id prop old
      let (s, _) := s.runFxList rest id prop old
      (s, true)
    else s.runFxList rest id prop old

/-- Translation of `runEffectsForProperty(inst, effects, id, prop, old)`. -/
def Store.runEffectsForProperty (s : Store) (effects : EffMap) (id : Nat)
    (prop : String) (old : JSVal) : Store × Bool :=
  let rootProperty := Path.root prop
  match effects.find rootProperty with
  | none => (s, false)
  | some fxs => s.runFxList fxs id prop old

/-- Effect registry types that are dispatched by `runEffects`. -/
inductive EffType where
  | compute : EffType
  | observe : EffType
deriving DecidableEq

/-- The live registry for a dispatched type (`inst[type]`). -/
def Store.typeMap (s : Store) : EffType → Option EffMap
  | .compute => s.computeMap
  | .observe => s.observeMap

/-- Iteration of `for (let prop in props)` inside `runEffects`. -/
def Store.runEffectsProps (s : Store) (effects : EffMap) (id : Nat)
    (props : List (String × JSVal)) (oldProps : Option JSObj) : Store × Bool :=
  match props with
  | [] => (s, false)
  | (prop, _) :: rest =>
    let old := JSObj.getO oldProps prop
    let (s, r1) := s.runEffectsForProperty effects id prop old
    let (s, r2) := s.runEffectsProps effects id rest oldProps
    (s, r1 || r2)

/-- Translation of `runEffects(inst, type, props, oldProps)`
(batched-effects.js): allocate a fresh pass id from the effect-uid counter
and dispatch each changed property against the registry of that type. -/
def Store.runEffects (s : Store) (ty : EffType) (props oldProps : Option JSObj) :
    Store × Bool :=
  match s.typeMap ty with
  | none => (s, false)
  | some effects =>
    let id := s.effectUid
    let s := { s with effectUid := id + 1 }
    s.runEffectsProps effects id (props.getD []) oldProps

/-- The `while (runEffects(inst, COMPUTE, inputProps))` loop of
`runComputedEffects`, with explicit fuel (one unit per pass; the JS loop is
unbounded).  Each executed pass folds `__dataOld` into the old map and
`__dataPending` into the changed and computed maps (plain `mixin`, i.e.
overwriting), feeds the pending set to the next pass and clears it. -/
def computeLoop (fuel : Nat) (s : Store)
    (input changed old computed : Option JSObj) :
    Res (Store × Option JSObj × Option JSObj × Option JSObj) :=
  match fuel with
  | 0 => .fuelOut
  | fuel + 1 =>
    let (s, ran) := s.runEffects .compute input none
    if ran then
      let old' := some (mixin (old.getD []) (s.dataOld.getD []))
      let changed' := some (mixin (changed.getD []) (s.dataPending.getD []))
      let computed' := some (mixin (computed.getD []) (s.dataPending.getD []))
      let input' := s.dataPending
      computeLoop fuel { s with dataPending := none } input' changed' old' computed'
    else .ok (s, changed, old, computed)

/-- Translation of `runComputedEffects(inst, changedProps, oldProps)`:
nothing happens unless a COMPUTE registry exists; otherwise run compute
passes to a fixpoint (or run out of fuel). -/
def Store.runComputedEffects (fuel : Nat) (s : Store)
    (changed old : Option JSObj) :
    Res (Store × Option JSObj × Option JSObj × Option JSObj) :=
  if s.computeMap.isSome then computeLoop fuel s changed changed old none
  else .ok (s, changed, old, none)

/-- One changed path against one linked pair in `computeLinkedPaths`. -/
def linkedStepInner (a b : String) (acc : Store × Option JSObj × JSObj)
    (pv : String × JSVal) : Store × Option JSObj × JSObj :=
  let s := acc.1
  let ch := acc.2.1
  let cp := acc.2.2
  let path := pv.1
  let v := (ch.getD []).get path
  if Path.isDescendant a path then
    let link := Path.translate a b path
    ({ s with data := s.data.set link v },
     some ((ch.getD []).set link v), cp.set link v)
  else if Path.isDescendant b path then
    let link := Path.translate b a path
    ({ s with data := s.data.set link v },
     some ((ch.getD []).set link v), cp.set link v)
  else acc

/-- One linked pair of `computeLinkedPaths`: iterate the changed snapshot. -/
def linkedStep (acc : Store × Option JSObj × JSObj) (ab : String × String) :
    Store × Option JSObj × JSObj :=
  (acc.2.1.getD []).foldl (linkedStepInner ab.1 ab.2) acc

/-- Translation of `computeLinkedPaths(inst, changedProps, computedProps)`:
mirror each changed path across every linked pair, recording the mirrored
path in `changed`, `computed` and `__data`.  The JS `for..in` enumerates
the live object; the model iterates a snapshot per link pair (no verified
scenario registers linked paths). -/
def Store.computeLinkedPaths (s : Store) (changed computed : Option JSObj) :
    Store × Option JSObj × Option JSObj :=
  match s.dataLinkedPaths with
  | none => (s, changed, computed)
  | some links =>
    let r := links.foldl linkedStep (s, changed, computed.getD [])
    (r.1, r.2.1, some r.2.2)

/-- Translation of `notifyProperties(inst, changedProps, computedProps,
oldProps)`: bump `_runId`, merge into the interim buffers, and (as the
outermost frame — always, in this model, since modelled callbacks cannot
re-enter) take the combined interim data back out for notification. -/
def Store.notifyProperties (s : Store) (changed old : Option JSObj) :
    Store × Option (Option JSObj × Option JSObj) :=
  let runId := s.runId + 1
  let s := { s with runId := runId }
  let interim :=
    match s.dataInterim with
    | some i => some (mixin i (changed.getD []))
    | none => changed
  let interimOld :=
    match s.dataInterimOld with
    | some i => some (mixin i (old.getD []))
    | none => old
  let s := { s with dataInterim := interim, dataInterimOld := interimOld }
  if runId == s.runId then
    ({ s with dataInterim := none, dataInterimOld := none },
     some (interim, interimOld))
  else (s, none)

/-- Translation of `BatchedEffects._flushClients`: child stores are outside
the verified scope (`_flushClients` is an injection point per the spec), so
flushing only clears the pending-clients flag. -/
def Store.flushClients (s : Store) : Store :=
  if s.dataPendingClients then { s with dataPendingClients := false } else s

/-- Translation of `BatchedEffects._propertiesChanged(currentProps,
changedProps, oldProps)`: compute fixpoint, linked paths, notify bookkeeping,
client flush, then OBSERVE effects.  The delivered changed set is recorded
as a `flushChanged` trace event (the JS version logs it). -/
def Store.propertiesChanged (fuel : Nat) (s : Store)
    (changedProps oldProps : Option JSObj) : Res Store :=
  let s := s.push (.flushChanged (changedProps.getD []))
  match s.runComputedEffects fuel changedProps oldProps with
  | .thrown m => .thrown m
  | .fuelOut => .fuelOut
  | .ok (s, changed, old, computed) =>
    let (s, changed, _computed) := s.computeLinkedPaths changed computed
    let (s, fin) := s.notifyProperties changed old
    match fin with
    | none => .ok s
    | some (changed, old) =>
      let s := s.flushClients
      let (s, _) := s.runEffects .observe changed old
      .ok s

/-- Translation of `PropertyEffects.ready()` (and `Store.ready()`, which
only delegates): mark the data system initialized. -/
def Store.readyFn (s : Store) : Store :=
  { s with dataInitialized := true }

/-- Translation of `PropertyEffects._flushProperties(fromAbove)` layered
over `PropertyAccessors._flushProperties`: call `ready` on first flush, and
when there is pending data (or pending clients) hand the pending/old maps
to `_propertiesChanged` with the from-above marker set. -/
def Store.flushProperties (fuel : Nat) (s : Store) (fromAbove : Bool) :
    Res Store :=
  let s := if !s.dataInitialized then s.readyFn else s
  if s.dataPending.isSome || s.dataPendingClients then
    let oldProps := s.dataOld
    let changedProps := s.dataPending
    let s := { s with dataFromAbove := fromAbove, dataPending := none }
    match s.propertiesChanged fuel changedProps oldProps with
    | .ok s => .ok { s with dataFromAbove := false }
    | r => r
  else .ok s

/-- Translation of `PropertyEffects._invalidateProperties`: no-op before
`ready`; synchronous flush unless `_asyncEffects` (the async microtask is
marked by the invalid flag; no verified scenario is asynchronous). -/
def Store.invalidateProperties (fuel : Nat) (s : Store) : Res Store :=
  if s.dataInitialized then
    if s.asyncEffects then
      .ok (if s.dataInvalid then s else { s with dataInvalid := true })
    else s.flushProperties fuel false
  else .ok s

/-- Translation of `PropertyAccessors._setProperty(property, value)`. -/
def Store.setProperty (fuel : Nat) (s : Store) (property : String)
    (value : JSVal) : Res Store :=
  let (s, changed) := s.setPendingProperty property value
  if changed then s.invalidateProperties fuel else .ok s

/-- Translation of `PropertyEffects._setPathOrUnmanagedProperty(path,
value)` (string paths; array paths are not used by the verified claims). -/
def Store.setPathOrUnmanaged (s : Store) (path : String) (value : JSVal) :
    Store × Option String :=
  let rootProperty := Path.root path
  let hasEffect := s.hasAnyEffect rootProperty
  let isPath := rootProperty != path
  let (s, p) :=
    if !hasEffect || isPath then s.pathSet path value
    else (s, some path)
  if hasEffect then (s, p) else (s, none)

/-- Translation of the public `set(path, value)` (no `root` argument):
silently skip read-only paths, otherwise route through
`_setPathOrUnmanagedProperty` and `_setProperty`. -/
def Store.setOp (fuel : Nat) (s : Store) (path : String) (value : JSVal) :
    Res Store :=
  if s.hasReadOnlyEffect path then .ok s
  else
    match s.setPathOrUnmanaged path value with
    | (s, some p) => s.setProperty fuel p value
    | (s, none) => .ok s

/-- Translation of the public `get(path)` (no `root` argument). -/
def Store.getOp (s : Store) (path : String) : JSVal :=
  s.pathGet path

/-- Translation of the public `notifyPath(path, value)`; when `value` is
omitted the current value is read from the tree first. -/
def Store.notifyPathOp (fuel : Nat) (s : Store) (path : String)
    (value : Option JSVal) : Res Store :=
  match value with
  | none => s.setProperty fuel path (s.pathGet path)
  | some v => s.setProperty fuel path v

/-- Whitespace test used by trimming (the JS regexes use `\s`). -/
def isWS (c : Char) : Bool :=
  c == ' ' || c == '\t' || c == '\n' || c == '\r'

/-- Trim of both ends of a character list (JS `String.prototype.trim`). -/
def trimChars (l : List Char) : List Char :=
  ((l.dropWhile isWS).reverse.dropWhile isWS).reverse

/-- Replacement of `\,` by the `&comma;` entity (parseMethod step). -/
def escCommas : List Char → List Char
  | '\\' :: ',' :: rest => '&' :: 'c' :: 'o' :: 'm' :: 'm' :: 'a' :: ';' :: escCommas rest
  | c :: rest => c :: escCommas rest
  | [] => []

/-- Replacement of the `&comma;` entity back by `,` (parseArg step). -/
def unescCommas : List Char → List Char
  | '&' :: 'c' :: 'o' :: 'm' :: 'm' :: 'a' :: ';' :: rest => ',' :: unescCommas rest
  | c :: rest => c :: unescCommas rest
  | [] => []

/-- Removal of one level of backslash escapes (`.replace(/\\(.)/g, '$1')`). -/
def dropEscapes : List Char → List Char
  | '\\' :: c :: rest => c :: dropEscapes rest
  | c :: rest => c :: dropEscapes rest
  | [] => []

/-- Split of a character list on unescaped commas (after `escCommas`). -/
def splitCommas (l : List Char) : List (List Char) :=
  match l with
  | [] => [[]]
  | ',' :: rest =>
    [] :: splitCommas rest
  | c :: rest =>
    match splitCommas rest with
    | [] => [[c]]
    | piece :: more => (c :: piece) :: more

/-- Numeric value of a digit run. -/
def digitsVal (l : List Char) : Nat :=
  l.foldl (fun acc c => 10 * acc + (c.toNat - '0'.toNat)) 0

/-- JS `Number(arg)` restricted to the simple decimal forms that can reach
it in `parseArg` (a leading digit after an optional `-`); anything else is
`NaN`. -/
def jsNumber (s : String) : JSVal :=
  let (neg, l) :=
    match s.toList with
    | '-' :: r => (true, r)
    | r => (false, r)
  let intPart := l.takeWhile Char.isDigit
  let rest := l.dropWhile Char.isDigit
  if intPart.isEmpty then .nan
  else
    let sign : ℚ := if neg then -1 else 1
    match rest with
    | [] => .num (sign * (digitsVal intPart : ℚ))
    | '.' :: fr =>
      if !fr.isEmpty && fr.all Char.isDigit then
        .num (sign * ((digitsVal intPart : ℚ) +
          (digitsVal fr : ℚ) / ((10 : ℚ) ^ fr.length)))
      else .nan
    | _ => .nan

/-- Translation of `parseArg(rawArg)` (property-effects.js): trim, restore
escaped commas, drop escapes, then classify as string literal, number
literal, or (possibly structured / wildcard) property path. -/
def parseArg (rawArg : String) : ArgDesc :=
  let chars := dropEscapes (unescCommas (trimChars rawArg.toList))
  let arg := String.mk chars
  let fc :=
    match chars with
    | '-' :: c :: _ => some c
    | '-' :: [] => none
    | c :: _ => some c
    | [] => none
  let fc := match fc with
    | some c => if '0' ≤ c && c ≤ '9' then some '#' else some c
    | none => none
  match fc with
  | some '\'' => { name := arg, value := .str (String.mk (chars.drop 1).dropLast),
                   literal := true }
  | some '"' => { name := arg, value := .str (String.mk (chars.drop 1).dropLast),
                  literal := true }
  | some '#' => { name := arg, value := jsNumber arg, literal := true }
  | _ =>
    let structured := Path.isDeep arg
    let wildcard := structured && chars.reverse.take 2 == ['*', '.']
    { name := if wildcard then String.mk (chars.dropLast.dropLast) else arg,
      rootProperty := Path.root arg,
      structured := structured,
      wildcard := wildcard }

/-- Method signature metadata produced by `parseMethod`. -/
structure MethodSig where
  methodName : String
  args : List ArgDesc
  static : Bool
deriving Inhabited

/-- Translation of `parseMethod(expression)`: match
`([^\s]+?)\(([\s\S]*)\)` — a non-space method name directly before the
first `(`, and an argument list running to the last `)`. -/
def parseMethod (expression : String) : Option MethodSig :=
  let chars := expression.toList
  match chars.findIdx? (fun c => c = '(') with
  | none => none
  | some i =>
    let nameRev := ((chars.take i).reverse.takeWhile (fun c => !isWS c))
    if nameRev.isEmpty then none
    else
      let after := chars.drop (i + 1)
      let innerLen := after.length - 1 - (after.reverse.findIdx (fun c => c = ')'))
      if after.contains ')' then
        let inner := after.take innerLen
        let methodName := String.mk nameRev.reverse
        if (trimChars inner).isEmpty then
          some { methodName := methodName, args := [], static := true }
        else
          let args := (splitCommas (escCommas inner)).map
            (fun piece => parseArg (String.mk piece))
          some { methodName := methodName, args := args,
                 static := args.all (fun a => a.literal) }
      else none

/-- Registry types used at registration time. -/
inductive RegType where
  | compute : RegType
  | observe : RegType
  | readOnly : RegType
deriving DecidableEq

/-- The native-property blacklist of property-accessors.js:
`saveAccessorValue` does not read these names. -/
def nativeProperties : List String :=
  ["title", "lang", "translate", "dir", "dataset", "hidden", "tabIndex",
   "accessKey", "draggable", "spellcheck", "contentEditable",
   "isContentEditable", "offsetParent", "offsetTop", "offsetLeft",
   "offsetWidth", "offsetHeight", "style", "innerText", "outerText",
   "webkitdropzone", "onabort", "onblur", "oncancel", "oncanplay",
   "oncanplaythrough", "onchange", "onclick", "onclose", "oncontextmenu",
   "oncuechange", "ondblclick", "ondrag", "ondragend", "ondragenter",
   "ondragleave", "ondragover", "ondragstart", "ondrop", "ondurationchange",
   "onemptied", "onended", "onerror", "onfocus", "oninput", "oninvalid",
   "onkeydown", "onkeypress", "onkeyup", "onload", "onloadeddata",
   "onloadedmetadata", "onloadstart", "onmousedown", "onmouseenter",
   "onmouseleave", "onmousemove", "onmouseout", "onmouseover", "onmouseup",
   "onmousewheel", "onpause", "onplay", "onplaying"]

/-- Translation of `saveAccessorValue(model, property)` for an instance:
a non-native property whose plain field value is defined becomes a pending
property before the accessor shadows it. -/
def Store.saveAccessorValue (s : Store) (property : String) : Store :=
  if nativeProperties.contains property then s
  else
    match s.fields.get property with
    | .undef => s
    | v => (s.setPendingProperty property v).1

/-- Translation of `PropertyEffects._addPropertyEffect(path, type, effect)`:
ensure the ANY bucket (creating the accessor on first contact with the root
property), append the effect to the ANY bucket and to the typed bucket.
For READ_ONLY registrations the JS pushes `undefined` into the typed
bucket; the model counts those entries (`roMap`), and they are never
dispatched (`runEffects` only reads COMPUTE and OBSERVE). -/
def Store.addPropertyEffect (s : Store) (path : String) (ty : RegType)
    (effect : Option Effect) : Store :=
  let property := Path.root path
  let anyM := s.anyMap.getD []
  let (s, anyM, bucket) :=
    match anyM.find property with
    | some b => (s, anyM, b)
    | none =>
      let anyM := anyM.set property []
      let s := { s with anyMap := some anyM }
      (s.saveAccessorValue property, anyM, ([] : List Effect))
  let effect := effect.map (fun e => { e with path := path })
  let anyM :=
    match effect with
    | some e => anyM.set property (bucket ++ [e])
    | none => anyM.set property bucket
  let s := { s with anyMap := some anyM }
  match ty with
  | .readOnly =>
    let ro := s.roMap.getD []
    let cnt := (ro.lookup property).getD 0
    { s with roMap := some ((ro.filter (fun kv => kv.1 ≠ property)) ++
        [(property, cnt + 1)]) }
  | .compute =>
    let m := s.computeMap.getD []
    let b := (m.find property).getD []
    { s with computeMap := some (m.set property (b ++ effect.toList)) }
  | .observe =>
    let m := s.observeMap.getD []
    let b := (m.find property).getD []
    { s with observeMap := some (m.set property (b ++ effect.toList)) }

/-- Translation of `_createReadOnlyProperty(property, protectedSetter)`:
register the READ_ONLY marker and optionally install the protected
`_set<Name>` setter. -/
def Store.createReadOnlyProperty (s : Store) (property : String)
    (protectedSetter : Bool) : Store :=
  let s := s.addPropertyEffect property .readOnly none
  if protectedSetter then
    { s with internalSetters := s.internalSetters ++ [property] }
  else s

/-- Translation of `_createObservedProperty(property, methodName)`. -/
def Store.createObservedProperty (s : Store) (property methodName : String) :
    Store :=
  let infoId := s.nextInfoId
  let s := { s with nextInfoId := infoId + 1 }
  s.addPropertyEffect property .observe (some
    { path := property, kind := .observer, infoId := some infoId,
      methodName := methodName })

/-- Translation of `createMethodEffect(model, sig, type, effectFn,
methodInfo, dynamic)`: one shared info object (one stamp id) for all the
argument-root registrations of this method effect. -/
def Store.createMethodEffect (s : Store) (sig : MethodSig) (ty : RegType)
    (kind : EffKind) (methodInfo : Option String) (dynamic : Bool) : Store :=
  let infoId := s.nextInfoId
  let s := { s with nextInfoId := infoId + 1 }
  let mk := fun (path : String) =>
    ({ path := path, kind := kind, infoId := some infoId,
       methodName := sig.methodName, args := sig.args,
       methodInfo := methodInfo, dynamicFn := dynamic } : Effect)
  let s :=
    if sig.static then
      s.addPropertyEffect "__static__" ty (some (mk "__static__"))
    else
      sig.args.foldl (fun s arg =>
        if !arg.literal then s.addPropertyEffect arg.name ty (some (mk arg.name))
        else s) s
  if dynamic then s.addPropertyEffect sig.methodName ty (some (mk sig.methodName))
  else s

/-- Translation of `_createComputedProperty(property, expression)`. -/
def Store.createComputedProperty (s : Store) (property expression : String) :
    Res Store :=
  match parseMethod expression with
  | none => .thrown "MalformedExpression"
  | some sig => .ok (s.createMethodEffect sig .compute .computed (some property) false)

/-- Translation of `_createMethodObserver(expression)`. -/
def Store.createMethodObserver (s : Store) (expression : String) : Res Store :=
  match parseMethod expression with
  | none => .thrown "MalformedExpression"
  | some sig => .ok (s.createMethodEffect sig .observe .methodObserver none false)

/-- Declared property configuration (`{type, readOnly, computed, observer}`;
the type marker is opaque to the engine and omitted). -/
structure PropConfig where
  readOnly : Bool := false
  computed : Option String := none
  observer : Option String := none

/-- Translation of `Store._createPropertyFromConfig(name, info)`:
`computed` forces `readOnly`; computed effect, then READ_ONLY effect (with
a protected setter only for non-computed), then the observer. -/
def Store.createPropertyFromConfig (s : Store) (name : String)
    (info : PropConfig) : Res Store :=
  let info := if info.computed.isSome then { info with readOnly := true } else info
  let step1 : Res Store :=
    match info.computed with
    | some expr =>
      if !s.hasReadOnlyEffect name then s.createComputedProperty name expr
      else .ok s
    | none => .ok s
  step1.bind fun s =>
    let s :=
      if info.readOnly && !s.hasReadOnlyEffect name then
        s.createReadOnlyProperty name info.computed.isNone
      else s
    .ok (match info.observer with
         | some m => s.createObservedProperty name m
         | none => s)

/-- Translation of the `Store` constructor: copy the methods table, then
`_finalizeConfig` processes the property map in order. -/
def mkStore (properties : List (String × PropConfig))
    (methods : String → Option (List JSVal → JSVal)) : Res Store :=
  properties.foldl
    (fun r p => r.bind fun s => s.createPropertyFromConfig p.1 p.2)
    (.ok { methods := methods })

/-- Translation of `notifySplices(inst, array, path, splices)`
(module-level, property-effects.js): set `path + '.splices'` and
`path + '.length'` through `_setProperty`, then null the cached splice
records on `__data` to let them be collected. -/
def notifySplicesData (fuel : Nat) (s : Store) (array : List JSVal)
    (path : String) (splices : JSVal) : Res Store :=
  let splicesPath := path ++ ".splices"
  (s.setProperty fuel splicesPath (.obj [("indexSplices", splices)])).bind fun s =>
  (s.setProperty fuel (path ++ ".length") (.num array.length)).bind fun s =>
  .ok { s with data := s.data.set splicesPath (.obj [("indexSplices", .null)]) }

/-- Translation of `notifySplice(inst, array, path, index, addedCount,
removed)`: build the single splice record and notify. -/
def notifySpliceData (fuel : Nat) (s : Store) (array : List JSVal)
    (path : String) (index : Int) (addedCount : Nat) (removed : List JSVal) :
    Res Store :=
  notifySplicesData fuel s array path (.arr [.obj
    [("index", .num index), ("addedCount", .num addedCount),
     ("removed", .arr removed), ("object", .arr array),
     ("type", .str "splice")]])

/-- Translation of the public `notifySplices(path, splices)`: resolve the
array through `Path.get`; on a non-array the first `_setProperty` still
runs, then reading `array.length` throws. -/
def Store.notifySplicesOp (fuel : Nat) (s : Store) (path : String)
    (splices : JSVal) : Res Store :=
  match s.pathGet path with
  | .arr elems => notifySplicesData fuel s elems path splices
  | _ =>
    (s.setProperty fuel (path ++ ".splices")
        (.obj [("indexSplices", splices)])).bind fun _ =>
      .thrown "TypeError"

/-- Translation of the public `push(path, ...items)`.  A missing array
makes `array.length` throw. -/
def Store.pushOp (fuel : Nat) (s : Store) (path : String)
    (items : List JSVal) : Res (Store × JSVal) :=
  match s.pathGet path with
  | .arr elems =>
    let len := elems.length
    let elems2 := elems ++ items
    let s := s.writeBack path (.arr elems2)
    let ret := JSVal.num elems2.length
    if items.length != 0 then
      (notifySpliceData fuel s elems2 path len items.length []).bind fun s =>
        .ok (s, ret)
    else .ok (s, ret)
  | _ => .thrown "TypeError"

/-- Translation of the public `pop(path)`: the splice index is the
post-pop `array.length`. -/
def Store.popOp (fuel : Nat) (s : Store) (path : String) :
    Res (Store × JSVal) :=
  match s.pathGet path with
  | .arr elems =>
    let hadLength := elems.length != 0
    let ret := elems.getLastD .undef
    let elems2 := elems.dropLast
    let s := s.writeBack path (.arr elems2)
    if hadLength then
      (notifySpliceData fuel s elems2 path elems2.length 0 [ret]).bind fun s =>
        .ok (s, ret)
    else .ok (s, ret)
  | _ => .thrown "TypeError"

/-- Translation of the public `shift(path)`. -/
def Store.shiftOp (fuel : Nat) (s : Store) (path : String) :
    Res (Store × JSVal) :=
  match s.pathGet path with
  | .arr elems =>
    let hadLength := elems.length != 0
    let ret := elems.headD .undef
    let elems2 := elems.tail
    let s := s.writeBack path (.arr elems2)
    if hadLength then
      (notifySpliceData fuel s elems2 path 0 0 [ret]).bind fun s =>
        .ok (s, ret)
    else .ok (s, ret)
  | _ => .thrown "TypeError"

/-- Translation of the public `unshift(path, ...items)`. -/
def Store.unshiftOp (fuel : Nat) (s : Store) (path : String)
    (items : List JSVal) : Res (Store × JSVal) :=
  match s.pathGet path with
  | .arr elems =>
    let elems2 := items ++ elems
    let s := s.writeBack path (.arr elems2)
    let ret := JSVal.num elems2.length
    if items.length != 0 then
      (notifySpliceData fuel s elems2 path 0 items.length []).bind fun s =>
        .ok (s, ret)
    else .ok (s, ret)
  | _ => .thrown "TypeError"

/-- A JS number argument: a rational or `NaN` (also standing for the
`undefined`-fed arithmetic of a missing argument). -/
inductive JSNum where
  | nan : JSNum
  | val (q : ℚ) : JSNum

/-- Translation of the `start` normalization at the head of `splice`:
`if (start < 0) start = array.length - Math.floor(-start); else start =
Math.floor(start); if (!start) start = 0;`.  For numbers the final falsy
coercion only maps `NaN` (and `0`) to `0`. -/
def spliceNormStart (len : Nat) (start : JSNum) : Int :=
  match start with
  | .nan => 0
  | .val q => if q < 0 then (len : Int) - Int.floor (-q) else Int.floor q

/-- Native `Array.prototype.splice` on the model: clamps the (already
normalized, possibly negative or past-the-end) start and the delete count,
removes, and inserts. -/
def jsSplice (elems : List JSVal) (start deleteCount : Int)
    (items : List JSVal) : List JSVal × List JSVal :=
  let len : Int := elems.length
  let actual : Nat := (if start < 0 then max (len + start) 0 else min start len).toNat
  let dc : Nat := (max 0 (min deleteCount (len - actual))).toNat
  let removed := (elems.drop actual).take dc
  let newElems := elems.take actual ++ items ++ elems.drop (actual + dc)
  (newElems, removed)

/-- Translation of the public `splice(path, start, deleteCount, ...items)`:
normalize `start`, mutate, and notify with the *normalized* start as the
record index (the pre-clamp value). -/
def Store.spliceOp (fuel : Nat) (s : Store) (path : String) (start : JSNum)
    (deleteCount : Int) (items : List JSVal) : Res (Store × JSVal) :=
  match s.pathGet path with
  | .arr elems =>
    let start := spliceNormStart elems.length start
    let (elems2, removed) := jsSplice elems start deleteCount items
    let s := s.writeBack path (.arr elems2)
    if items.length != 0 || removed.length != 0 then
      (notifySpliceData fuel s elems2 path start items.length removed).bind
        fun s => .ok (s, .arr removed)
    else .ok (s, .arr removed)
  | _ => .thrown "TypeError"

/-- Translation of the public `spliceByValue(path, value)`: `indexOf` with
strict equality, then `splice(path, ind, 1)` when found. -/
def Store.spliceByValueOp (fuel : Nat) (s : Store) (path : String)
    (value : JSVal) : Res (Store × JSVal) :=
  match s.pathGet path with
  | .arr elems =>
    let hadLength := elems.length != 0
    if hadLength then
      match elems.findIdx? (fun e => strictEq e value) with
      | some ind => s.spliceOp fuel path (.val ind) 1 []
      | none => .ok (s, .arr [])
    else .ok (s, .arr [])
  | _ => .thrown "TypeError"

/-- Translation of `BatchedEffects.setProperties(props)`: enqueue every
non-read-only property, then invalidate once. -/
def Store.setPropertiesOp (fuel : Nat) (s : Store)
    (props : List (String × JSVal)) : Res Store :=
  let s := props.foldl (fun s pv =>
    if s.hasReadOnlyEffect pv.1 then s
    else
      match s.setPathOrUnmanaged pv.1 pv.2 with
      | (s, some p) => (s.setPendingProperty p pv.2).1
      | (s, none) => s) s
  s.invalidateProperties fuel

/-- Assoc update for the linked-paths map. -/
def linkSet (l : List (String × String)) (k v : String) :
    List (String × String) :=
  match l with
  | [] => [(k, v)]
  | (k', v') :: rest =>
    if k' == k then (k', v) :: rest else (k', v') :: linkSet rest k v

/-- Translation of the public `linkPaths(to, from)`: a falsy `from` makes
the JS call `this.__dataLinkedPaths(to)` — a `TypeError` (noted as a source
bug by the spec's design notes). -/
def Store.linkPathsOp (s : Store) (toPath : String)
    (fromPath : Option String) : Res Store :=
  let s :=
    if s.dataLinkedPaths.isNone then { s with dataLinkedPaths := some [] }
    else s
  match fromPath with
  | some f =>
    let links := linkSet (s.dataLinkedPaths.getD []) toPath f
    .ok { s with dataLinkedPaths := some links }
  | none => .thrown "TypeError"

/-- Translation of the public `unlinkPaths(path)`. -/
def Store.unlinkPathsOp (s : Store) (path : String) : Store :=
  match s.dataLinkedPaths with
  | none => s
  | some l =>
    { s with dataLinkedPaths := some (l.filter (fun kv => kv.1 ≠ path)) }

/-- The store fields that no effect dispatch ever writes (registries,
flags, buffers owned by the outer pipeline).  Used to state frame lemmas. -/
def Store.regs (s : Store) :=
  (s.anyMap, s.computeMap, s.observeMap, s.roMap, s.dataPendingClients,
   s.dataInitialized, s.asyncEffects, s.dataLinkedPaths, s.dataInterim,
   s.dataInterimOld, s.internalSetters, s.nextInfoId, s.dataInvalid,
   s.dataFromAbove, s.runId, s.methods)

/-- Effects that are safe for the OBSERVE registry: they never write store
state (only the trace).  `mkStore` only registers such kinds there. -/
def WFFxs (fxs : List Effect) : Prop :=
  ∀ fx ∈ fxs, fx.kind ≠ EffKind.computed

/-- Well-formed OBSERVE registry map. -/
def WFMap (m : EffMap) : Prop :=
  ∀ kv ∈ m, WFFxs kv.2

/-- Well-formed OBSERVE registry of a store. -/
def Store.WFObserve (s : Store) : Prop :=
  ∀ m, s.observeMap = some m → WFMap m

/-- The committed state shape of `notifyProperties`: bumped `runId` and
cleared interim buffers. -/
def Store.commitNotify (s : Store) : Store :=
  { s with runId := s.runId + 1, dataInterim := none, dataInterimOld := none }

/-- Helper for stating claims: the modelled value is `NaN`. -/
def isNaNVal : JSVal → Bool
  | .nan => true
  | _ => false

/-- Projection helpers for stating facts about concrete runs. -/
def resIsOk {α : Type} : Res α → Bool
  | .ok _ => true
  | _ => false

def resTrace : Res Store → List TraceEv
  | .ok s => s.trace
  | _ => []

def resData : Res Store → JSObj
  | .ok s => s.data
  | _ => []

def resPending : Res Store → Option JSObj
  | .ok s => s.dataPending
  | _ => some []

/-- Method table for the C10 scenario: a single observer. -/
def c10Methods : String → Option (List JSVal → JSVal) := fun name =>
  if name = "_obs" then some (fun _ => .undef) else none

/-- A ready store with one observed property `p`. -/
def c10Store : Store :=
  match mkStore [("p", { observer := some "_obs" })] c10Methods with
  | .ok s => s.readyFn
  | _ => default

/-- Set `p` to `null` twice (the trace is cleared between the calls, so the
recorded events belong to the second, `null`-over-`null` assignment). -/
def c10run : Res Store :=
  match c10Store.setOp 9 "p" .null with
  | .ok s => Store.setOp 9 { s with trace := [] } "p" .null
  | e => e

/-- Structural shape of a quiescent, synchronously-flushing store with no
computed effects and no linked paths (the common state for the splice
notification claims). -/
def StructuralState (s : Store) : Prop :=
  s.dataPending = none ∧ s.dataPendingClients = false ∧
  s.computeMap = none ∧ s.dataLinkedPaths = none ∧
  s.dataInterim = none ∧ s.dataInterimOld = none ∧
  s.dataInitialized = true ∧ s.asyncEffects = false

def c8Store : Store :=
  { dataInitialized := true,
    fields := [("a", JSVal.arr [.num 1, .num 2])] }

/-- The spec's stated normalization for `splice`'s `start` (for comparison
with the code's `spliceNormStart`): a negative start maps to
`max(0, len + ceil(-start) * -1)`, a non-negative start is floored, and a
falsy start is coerced to 0. -/
def specSpliceStart (len : Nat) (start : JSNum) : Int :=
  match start with
  | .nan => 0
  | .val q =>
    if q < 0 then max 0 ((len : Int) + Int.ceil (-q) * (-1)) else Int.floor q

def c7Store : Store :=
  { dataInitialized := true,
    fields := [("a", JSVal.arr [.str "x"])] }

def c7run : Res (Store × JSVal) := c7Store.spliceOp 3 "a" (.val (-5)) 1 []

def resTracePair : Res (Store × JSVal) → List TraceEv
  | .ok (s, _) => s.trace
  | _ => []

def c4Store : Store :=
  { Store.createReadOnlyProperty { dataInitialized := true } "a" false with
      data := [("a", JSVal.obj [("b", JSVal.num 1)])] }

/-- String projection used by the concrete compute methods. -/
def asStr : JSVal → String
  | .str s => s
  | _ => "?"

def c3Methods : String → Option (List JSVal → JSVal) :=
  fun n =>
    if n == "g" then some (fun args =>
      .str (asStr (args.getD 0 .undef) ++ asStr (args.getD 1 .undef)))
    else if n == "h" then some (fun args =>
      .str (asStr (args.getD 0 .undef) ++ "!"))
    else if n == "_obs" then some (fun _ => .undef)
    else none

/-- Diamond configuration: `d = g(a, c)` is registered before `c = h(a)`,
so each pass computes `d` before refreshing `c` and the fixpoint needs two
passes; `d` has an observer. -/
def c3Res : Res Store :=
  mkStore
    [("a", {}),
     ("d", { computed := some "g(a, c)", observer := some "_obs" }),
     ("c", { computed := some "h(a)" })]
    c3Methods

def c3Store : Store :=
  match c3Res with
  | .ok s => s
  | _ => {}

/-- Sequencing helper for chained concrete runs. -/
def step (r : Res Store) (f : Store → Res Store) : Res Store :=
  match r with
  | .ok s => f s
  | e => e

/-- First cycle: seed `a := "A"` and flush (runs `ready`), converging to
`d = "AA!"`, `c = "A!"`. -/
def c3Ready : Res Store :=
  step (c3Store.setOp 20 "a" (.str "A")) (fun s => s.flushProperties 20 true)

/-- Second cycle: `a := "A" → "B"`.  The cycle writes `d` twice ( `"BA!"`
with the stale `c`, then `"BB!"` ). -/
def c3Run : Res Store :=
  step c3Ready (fun s => s.setOp 20 "a" (.str "B"))

def c3wStore : Store :=
  { dataPending := some [("p", JSVal.num 1)],
    dataOld := some [("p", JSVal.num 0)],
    data := [("p", JSVal.num 1)] }

/-- Dispatch-trace test: the event is a dispatch of the info block `i`. -/
def isDispatchOf (i : Nat) : TraceEv → Bool
  | .dispatch (some j) _ _ => j == i
  | _ => false

/-- Number of dispatches of info block `i` recorded in a trace. -/
def dispatchCount (i : Nat) (evs : List TraceEv) : Nat :=
  evs.countP (isDispatchOf i)

def c9Store : Store :=
  match mkStore [("p", { observer := some "_obs" })]
      (fun n => if n == "_obs" then some (fun _ => JSVal.undef) else none) with
  | .ok s => s
  | _ => {}

/-- The compute effect of the cyclic configuration `c: computed 'f(a, c)'`,
as registered by `createMethodEffect` under each dependency root. -/
def cycFx (path : String) : Effect :=
  { path := path, kind := .computed, infoId := some 0, methodName := "f",
    args := [{ name := "a", value := .undef, literal := false,
               structured := false, rootProperty := "a", wildcard := false },
             { name := "c", value := .undef, literal := false,
               structured := false, rootProperty := "c", wildcard := false }],
    methodInfo := some "c", dynamicFn := false }

def cycMap : EffMap := [("a", [cycFx "a"]), ("c", [cycFx "c"])]

def cycMethods : String → Option (List JSVal → JSVal) :=
  fun n => if n == "f" then some (fun _ => JSVal.obj []) else none

/-- The store built from the cyclic configuration (the computed property
`c` depends on itself). -/
def cyclicRes : Res Store :=
  mkStore [("a", {}), ("c", { computed := some "f(a, c)" })] cycMethods

def cyclicStore : Store :=
  match cyclicRes with
  | .ok s => s
  | _ => {}

/-- Shape of the store along the cyclic compute run: only the data tree,
old map, trace, effect-uid and stamps vary. -/
def cycState (d : JSObj) (dold : Option JSObj) (T : List TraceEv) (n : Nat)
    (st : Nat → Option Nat) : Store :=
  { data := d, dataOld := dold, computeMap := some cycMap,
    anyMap := some cycMap, roMap := some [("c", 1)], nextInfoId := 1,
    methods := cycMethods, trace := T, effectUid := n, stamps := st }

/-! ## Claim theorems -/

mutual

/-- Reflexivity of structural value equality. -/
theorem jsvalBeq_refl : ∀ v, jsvalBeq v v = true
  | .undef => rfl
  | .null => rfl
  | .bool _ => by simp [jsvalBeq]
  | .num _ => by simp [jsvalBeq]
  | .nan => rfl
  | .str _ => by simp [jsvalBeq]
  | .obj x => by simp [jsvalBeq, jsobjBeq_refl x]
  | .arr x => by simp [jsvalBeq, jslistBeq_refl x]

/-- Reflexivity of structural element-list equality. -/
theorem jslistBeq_refl : ∀ l, jslistBeq l l = true
  | [] => rfl
  | a :: as => by simp [jslistBeq, jsvalBeq_refl a, jslistBeq_refl as]

/-- Reflexivity of structural field-list equality. -/
theorem jsobjBeq_refl : ∀ l, jsobjBeq l l = true
  | [] => rfl
  | (k, v) :: as => by simp [jsobjBeq, jsvalBeq_refl v, jsobjBeq_refl as]

end

/-- C2: `_shouldPropChange(p, v, old)` returns true iff `v` is an object
(identity ignored), or `v !== old` with not both `v` and `old` being `NaN`;
hence equal-primitive assignments and NaN-over-NaN assignments are not
changes, while every object assignment is. -/
theorem C2_shouldPropChange_characterization (p : String) (v old : JSVal) :
    shouldPropChange p v old =
      (typeofObject v || (!(strictEq v old) && !(isNaNVal v && isNaNVal old))) := by
  cases v <;> cases old <;>
    simp [shouldPropChange, strictEq, typeofObject, isNaNVal, jsvalBeq_refl,
      jslistBeq_refl, jsobjBeq_refl, eq_comm]

/-- C10: assigning `null` is always treated as a change (`typeof null` is
`'object'`), so `null` over `null` — unlike other equal primitives — still
records a pending change (delivered to `_propertiesChanged`, see the
`flushChanged` event) and fires the property's observer. -/
theorem C10_null_always_changes :
    (∀ (p : String) (old : JSVal), shouldPropChange p .null old = true) ∧
    resData c10run = [("p", JSVal.null)] ∧
    resTrace c10run = [.observe "_obs" .null JSVal.undef "p",
      .dispatch (some 0) "p" "p", .flushChanged [("p", JSVal.null)]] ∧
    resPending c10run = none := by
  refine ⟨?_, rfl, rfl, rfl⟩
  intro p old
  cases old <;> simp [shouldPropChange, typeofObject]

theorem setPendingProperty_regs (s : Store) (p : String) (v : JSVal) :
    ((s.setPendingProperty p v).1).regs = s.regs := by
  simp only [Store.setPendingProperty, Store.regs]
  repeat' split
  all_goals simp

theorem setPropertyFromComputation_regs (s : Store) (p : String) (v : JSVal) :
    (s.setPropertyFromComputation p v).regs = s.regs := by
  unfold Store.setPropertyFromComputation
  split
  · exact setPendingProperty_regs ..
  · rfl

theorem runMethodEffect_regs (s : Store) (fx : Effect) (prop : String)
    (v : JSVal) : ((s.runMethodEffect fx prop v).1).regs = s.regs := by
  simp only [Store.runMethodEffect, Store.push]
  repeat' split
  all_goals simp [Store.regs]

theorem runMethodEffect_fst (s : Store) (fx : Effect) (prop : String)
    (v : JSVal) : ∃ evs, (s.runMethodEffect fx prop v).1 =
      { s with trace := evs ++ s.trace } := by
  simp only [Store.runMethodEffect, Store.push]
  repeat' split
  · exact ⟨[.call fx.methodName (marshalArgs s.data fx.args prop v)], rfl⟩
  · exact ⟨[], rfl⟩
  · exact ⟨[.warn fx.methodName], rfl⟩

theorem runFx_regs (s : Store) (fx : Effect) (prop : String) (v old : JSVal) :
    (s.runFx fx prop v old).regs = s.regs := by
  unfold Store.runFx
  split
  · split <;> simp [Store.push, Store.regs]
  · exact runMethodEffect_regs ..
  · rename_i heq
    cases hE : s.runMethodEffect fx prop v with
    | mk s1 r =>
      have h := runMethodEffect_regs s fx prop v
      rw [hE] at h
      simp only [hE]
      rw [setPropertyFromComputation_regs]
      exact h

theorem runFx_frame (s : Store) (fx : Effect) (prop : String) (v old : JSVal)
    (hk : fx.kind ≠ EffKind.computed) :
    ∃ evs, s.runFx fx prop v old = { s with trace := evs ++ s.trace } := by
  unfold Store.runFx
  split
  · split
    · exact ⟨[.observe fx.methodName v old prop], rfl⟩
    · exact ⟨[.warn fx.methodName], rfl⟩
  · exact runMethodEffect_fst ..
  · rename_i heq
    exact absurd heq hk

theorem dispatchFx_regs (s : Store) (fx : Effect) (id : Nat) (prop : String)
    (old : JSVal) : (s.dispatchFx fx id prop old).regs = s.regs := by
  simp only [Store.dispatchFx, Store.push]
  split
  · rw [runFx_regs]; rfl
  · rw [show ∀ (t : Store) f, ({ t with stamps := f } : Store).regs = t.regs
      from fun t f => rfl, runFx_regs]
    rfl

theorem runFxList_regs (fxs : List Effect) : ∀ (s : Store) (id : Nat)
    (prop : String) (old : JSVal),
    ((s.runFxList fxs id prop old).1).regs = s.regs := by
  induction fxs with
  | nil => intro s id prop old; rfl
  | cons fx rest ih =>
    intro s id prop old
    simp only [Store.runFxList]
    split
    · cases hE : Store.runFxList (s.dispatchFx fx id prop old) rest id prop old with
      | mk s4 r4 =>
        have h4 := ih (s.dispatchFx fx id prop old) id prop old
        rw [hE] at h4
        simp only [hE]
        exact h4.trans (dispatchFx_regs ..)
    · exact ih ..

theorem runFxList_false (fxs : List Effect) : ∀ (s : Store) (id : Nat)
    (prop : String) (old : JSVal),
    (s.runFxList fxs id prop old).2 = false →
    (s.runFxList fxs id prop old).1 = s := by
  induction fxs with
  | nil => intro s id prop old _; rfl
  | cons fx rest ih =>
    intro s id prop old h
    simp only [Store.runFxList] at h ⊢
    split at h <;> split
    · rename_i h1 h2
      rw [h1] at h2
      cases hE : Store.runFxList (s.dispatchFx fx id prop old) rest id prop old with
      | mk s4 r4 => rw [hE] at h; simp at h
    · rename_i h1 h2
      rw [h1] at h2
      exact absurd rfl h2
    · rename_i h1 h2
      rw [h2] at h1
      exact absurd rfl h1
    · exact ih s id prop old h

theorem dispatchFx_frame (s : Store) (fx : Effect) (id : Nat) (prop : String)
    (old : JSVal) (hk : fx.kind ≠ EffKind.computed) :
    ∃ evs st, s.dispatchFx fx id prop old =
      { s with trace := evs ++ s.trace, stamps := st } := by
  cases hinfo : fx.infoId with
  | none =>
    obtain ⟨evs, hevs⟩ := runFx_frame (s.push (.dispatch none fx.path prop))
      fx prop (((s.push (.dispatch none fx.path prop)).data).get prop) old hk
    refine ⟨evs ++ [.dispatch none fx.path prop], s.stamps, ?_⟩
    simp only [Store.dispatchFx, hinfo]
    rw [hevs]
    simp [Store.push]
  | some i =>
    obtain ⟨evs, hevs⟩ := runFx_frame (s.push (.dispatch (some i) fx.path prop))
      fx prop (((s.push (.dispatch (some i) fx.path prop)).data).get prop) old hk
    refine ⟨evs ++ [.dispatch (some i) fx.path prop],
      fun j => if j = i then some id else s.stamps j, ?_⟩
    simp only [Store.dispatchFx, hinfo]
    rw [hevs]
    simp [Store.push]

theorem runFxList_frame (fxs : List Effect) : ∀ (s : Store) (id : Nat)
    (prop : String) (old : JSVal), WFFxs fxs →
    ∃ evs st, (s.runFxList fxs id prop old).1 =
      { s with trace := evs ++ s.trace, stamps := st } := by
  induction fxs with
  | nil =>
    intro s id prop old _
    exact ⟨[], s.stamps, rfl⟩
  | cons fx rest ih =>
    intro s id prop old hwf
    have hkfx : fx.kind ≠ EffKind.computed := hwf fx (by simp)
    have hwfr : WFFxs rest := fun g hg => hwf g (by simp [hg])
    simp only [Store.runFxList]
    split
    · cases hE : Store.runFxList (s.dispatchFx fx id prop old) rest id prop old with
      | mk s4 r4 =>
        obtain ⟨e1, st1, h1⟩ := dispatchFx_frame s fx id prop old hkfx
        obtain ⟨e2, st2, h2⟩ := ih (s.dispatchFx fx id prop old) id prop old hwfr
        rw [hE] at h2
        refine ⟨e2 ++ e1, st2, ?_⟩
        simp only [hE]
        show s4 = _
        have h2b : s4 = { s.dispatchFx fx id prop old with
            trace := e2 ++ (s.dispatchFx fx id prop old).trace, stamps := st2 } := h2
        rw [h2b, h1]
        simp
    · exact ih s id prop old hwfr

theorem EffMap.find_mem (m : EffMap) (k : String) (fxs : List Effect)
    (h : m.find k = some fxs) : ∃ k', (k', fxs) ∈ m := by
  induction m with
  | nil => simp [EffMap.find] at h
  | cons kv rest ih =>
    rw [EffMap.find] at h
    split at h
    · refine ⟨kv.1, ?_⟩
      cases kv
      injection h with h
      simp_all
    · obtain ⟨k', hk'⟩ := ih h
      exact ⟨k', by simp [hk']⟩

theorem runEffectsForProperty_regs (s : Store) (effects : EffMap) (id : Nat)
    (prop : String) (old : JSVal) :
    ((s.runEffectsForProperty effects id prop old).1).regs = s.regs := by
  simp only [Store.runEffectsForProperty]
  split
  · rfl
  · exact runFxList_regs ..

theorem runEffectsForProperty_false (s : Store) (effects : EffMap) (id : Nat)
    (prop : String) (old : JSVal)
    (h : (s.runEffectsForProperty effects id prop old).2 = false) :
    (s.runEffectsForProperty effects id prop old).1 = s := by
  simp only [Store.runEffectsForProperty] at h ⊢
  split at h
  · rfl
  · exact runFxList_false _ _ _ _ _ h

theorem runEffectsForProperty_frame (s : Store) (effects : EffMap) (id : Nat)
    (prop : String) (old : JSVal) (hwf : WFMap effects) :
    ∃ evs st, (s.runEffectsForProperty effects id prop old).1 =
      { s with trace := evs ++ s.trace, stamps := st } := by
  simp only [Store.runEffectsForProperty]
  split
  · exact ⟨[], s.stamps, rfl⟩
  · rename_i fxs hfind
    obtain ⟨k', hk'⟩ := EffMap.find_mem _ _ _ hfind
    exact runFxList_frame fxs s id prop old (hwf _ hk')

theorem runEffectsProps_regs (props : List (String × JSVal)) :
    ∀ (s : Store) (effects : EffMap) (id : Nat) (oldProps : Option JSObj),
    ((s.runEffectsProps effects id props oldProps).1).regs = s.regs := by
  induction props with
  | nil => intro s effects id oldProps; rfl
  | cons pv rest ih =>
    intro s effects id oldProps
    simp only [Store.runEffectsProps]
    cases h1 : s.runEffectsForProperty effects id pv.1 (JSObj.getO oldProps pv.1) with
    | mk s1 r1 =>
      cases h2 : s1.runEffectsProps effects id rest oldProps with
      | mk s2 r2 =>
        have ha := runEffectsForProperty_regs s effects id pv.1 (JSObj.getO oldProps pv.1)
        have hb := ih s1 effects id oldProps
        rw [h1] at ha
        rw [h2] at hb
        simp only [h1, h2]
        exact hb.trans ha

theorem runEffectsProps_false (props : List (String × JSVal)) :
    ∀ (s : Store) (effects : EffMap) (id : Nat) (oldProps : Option JSObj),
    (s.runEffectsProps effects id props oldProps).2 = false →
    (s.runEffectsProps effects id props oldProps).1 = s := by
  induction props with
  | nil => intro s effects id oldProps _; rfl
  | cons pv rest ih =>
    intro s effects id oldProps h
    simp only [Store.runEffectsProps] at h ⊢
    cases h1 : s.runEffectsForProperty effects id pv.1 (JSObj.getO oldProps pv.1) with
    | mk s1 r1 =>
      cases h2 : s1.runEffectsProps effects id rest oldProps with
      | mk s2 r2 =>
        simp only [h1, h2] at h
        simp at h
        obtain ⟨hr1, hr2⟩ := h
        have ha : s1 = s := by
          have hx := runEffectsForProperty_false s effects id pv.1
            (JSObj.getO oldProps pv.1) (by rw [h1]; exact hr1)
          rw [h1] at hx
          exact hx
        have hb : s2 = s1 := by
          have hx := ih s1 effects id oldProps (by rw [h2]; exact hr2)
          rw [h2] at hx
          exact hx
        simp only [h1, h2]
        simp [hb, ha]

theorem runEffectsProps_frame (props : List (String × JSVal)) :
    ∀ (s : Store) (effects : EffMap) (id : Nat) (oldProps : Option JSObj),
    WFMap effects →
    ∃ evs st, (s.runEffectsProps effects id props oldProps).1 =
      { s with trace := evs ++ s.trace, stamps := st } := by
  induction props with
  | nil => intro s effects id oldProps _; exact ⟨[], s.stamps, rfl⟩
  | cons pv rest ih =>
    intro s effects id oldProps hwf
    simp only [Store.runEffectsProps]
    cases h1 : s.runEffectsForProperty effects id pv.1 (JSObj.getO oldProps pv.1) with
    | mk s1 r1 =>
      cases h2 : s1.runEffectsProps effects id rest oldProps with
      | mk s2 r2 =>
        obtain ⟨e1, st1, ha⟩ := runEffectsForProperty_frame s effects id pv.1
          (JSObj.getO oldProps pv.1) hwf
        simp only [h1] at ha
        obtain ⟨e2, st2, hb⟩ := ih s1 effects id oldProps hwf
        simp only [h2] at hb
        refine ⟨e2 ++ e1, st2, ?_⟩
        simp only [h1, h2]
        show s2 = _
        rw [hb, ha]
        simp

theorem runEffects_regs (s : Store) (ty : EffType) (props oldProps : Option JSObj) :
    ((s.runEffects ty props oldProps).1).regs = s.regs := by
  unfold Store.runEffects
  split
  · rfl
  · exact (runEffectsProps_regs ..).trans rfl

theorem runEffects_pending_of_false (s : Store) (ty : EffType)
    (props oldProps : Option JSObj)
    (h : (s.runEffects ty props oldProps).2 = false) :
    ((s.runEffects ty props oldProps).1).dataPending = s.dataPending := by
  simp only [Store.runEffects] at h ⊢
  cases hm : s.typeMap ty with
  | none => simp [hm]
  | some m =>
    simp only [hm] at h ⊢
    rw [runEffectsProps_false _ _ _ _ _ h]

theorem runEffects_none (s : Store) (ty : EffType) (props oldProps : Option JSObj)
    (hm : s.typeMap ty = none) : s.runEffects ty props oldProps = (s, false) := by
  simp [Store.runEffects, hm]

theorem runEffects_frame (s : Store) (ty : EffType) (props oldProps : Option JSObj)
    (m : EffMap) (hm : s.typeMap ty = some m) (hwf : WFMap m) :
    ∃ evs st uid, (s.runEffects ty props oldProps).1 =
      { s with trace := evs ++ s.trace, stamps := st, effectUid := uid } := by
  simp only [Store.runEffects, hm]
  obtain ⟨evs, st, h⟩ := runEffectsProps_frame (props.getD [])
    { s with effectUid := s.effectUid + 1 } m s.effectUid oldProps hwf
  refine ⟨evs, st, s.effectUid + 1, ?_⟩
  rw [h]

theorem runEffects_regs_fields (a b : Store) (h : a.regs = b.regs) :
    a.anyMap = b.anyMap ∧ a.computeMap = b.computeMap ∧
    a.observeMap = b.observeMap ∧ a.roMap = b.roMap ∧
    a.dataPendingClients = b.dataPendingClients ∧
    a.dataInitialized = b.dataInitialized ∧ a.asyncEffects = b.asyncEffects ∧
    a.dataLinkedPaths = b.dataLinkedPaths ∧ a.dataInterim = b.dataInterim ∧
    a.dataInterimOld = b.dataInterimOld ∧
    a.internalSetters = b.internalSetters ∧ a.nextInfoId = b.nextInfoId ∧
    a.dataInvalid = b.dataInvalid ∧ a.dataFromAbove = b.dataFromAbove ∧
    a.runId = b.runId ∧ a.methods = b.methods := by
  simp only [Store.regs, Prod.mk.injEq] at h
  exact ⟨h.1, h.2.1, h.2.2.1, h.2.2.2.1, h.2.2.2.2.1, h.2.2.2.2.2.1,
    h.2.2.2.2.2.2.1, h.2.2.2.2.2.2.2.1, h.2.2.2.2.2.2.2.2.1,
    h.2.2.2.2.2.2.2.2.2.1, h.2.2.2.2.2.2.2.2.2.2.1,
    h.2.2.2.2.2.2.2.2.2.2.2.1, h.2.2.2.2.2.2.2.2.2.2.2.2.1,
    h.2.2.2.2.2.2.2.2.2.2.2.2.2.1, h.2.2.2.2.2.2.2.2.2.2.2.2.2.2.1,
    h.2.2.2.2.2.2.2.2.2.2.2.2.2.2.2⟩

theorem computeLoop_ok (fuel : Nat) : ∀ (s : Store)
    (input changed old computed : Option JSObj) (s' : Store)
    (c' o' cp' : Option JSObj), s.dataPending = none →
    computeLoop fuel s input changed old computed = .ok (s', c', o', cp') →
    s'.regs = s.regs ∧ s'.dataPending = none := by
  induction fuel with
  | zero =>
    intro s input changed old computed s' c' o' cp' hp h
    simp [computeLoop] at h
  | succ n ih =>
    intro s input changed old computed s' c' o' cp' hp h
    simp only [computeLoop] at h
    cases hE : s.runEffects .compute input none with
    | mk s1 ran =>
      simp only [hE] at h
      cases ran with
      | false =>
        simp only [Bool.false_eq_true, if_false] at h
        have hfalse : (s.runEffects .compute input none).2 = false := by
          rw [hE]
        have hid := runEffects_pending_of_false s .compute input none hfalse
        have hregs := runEffects_regs s .compute input none
        rw [hE] at hid hregs
        simp only [Res.ok.injEq, Prod.mk.injEq] at h
        obtain ⟨hs, -, -, -⟩ := h
        subst hs
        exact ⟨hregs, hid.trans hp⟩
      | true =>
        simp only [if_true] at h
        have hih := ih _ _ _ _ _ _ _ _ _ rfl h
        have hregs := runEffects_regs s .compute input none
        rw [hE] at hregs
        exact ⟨hih.1.trans hregs, hih.2⟩

theorem runComputedEffects_ok (fuel : Nat) (s : Store)
    (changed old : Option JSObj) (s' : Store) (c' o' cp' : Option JSObj)
    (hp : s.dataPending = none)
    (h : s.runComputedEffects fuel changed old = .ok (s', c', o', cp')) :
    s'.regs = s.regs ∧ s'.dataPending = none := by
  unfold Store.runComputedEffects at h
  split at h
  · exact computeLoop_ok fuel s changed changed old none s' c' o' cp' hp h
  · simp only [Res.ok.injEq, Prod.mk.injEq] at h
    obtain ⟨hs, -, -, -⟩ := h
    subst hs
    exact ⟨rfl, hp⟩

theorem foldlPres {α β : Type} (f : α → β → α) (P : α → Prop)
    (hf : ∀ a b, P a → P (f a b)) :
    ∀ (l : List β) (a : α), P a → P (List.foldl f a l) := by
  intro l
  induction l with
  | nil => intro a h; exact h
  | cons x xs ih => intro a h; exact ih (f a x) (hf a x h)

theorem computeLinkedPaths_state (s : Store) (changed computed : Option JSObj) :
    ((s.computeLinkedPaths changed computed).1).regs = s.regs ∧
    ((s.computeLinkedPaths changed computed).1).dataPending = s.dataPending := by
  have hInner : ∀ (a b : String) (acc : Store × Option JSObj × JSObj) pv,
      (acc.1.regs = s.regs ∧ acc.1.dataPending = s.dataPending) →
      ((linkedStepInner a b acc pv).1.regs = s.regs ∧
       (linkedStepInner a b acc pv).1.dataPending = s.dataPending) := by
    intro a b acc pv ⟨h1, h2⟩
    simp only [linkedStepInner]
    split
    · exact ⟨h1, h2⟩
    · split
      · exact ⟨h1, h2⟩
      · exact ⟨h1, h2⟩
  have hStep : ∀ (acc : Store × Option JSObj × JSObj) ab,
      (acc.1.regs = s.regs ∧ acc.1.dataPending = s.dataPending) →
      ((linkedStep acc ab).1.regs = s.regs ∧
       (linkedStep acc ab).1.dataPending = s.dataPending) := by
    intro acc ab hacc
    exact foldlPres _ (fun t => t.1.regs = s.regs ∧ t.1.dataPending = s.dataPending)
      (hInner ab.1 ab.2) (acc.2.1.getD []) acc hacc
  unfold Store.computeLinkedPaths
  split
  · exact ⟨rfl, rfl⟩
  · rename_i links _
    exact foldlPres _ (fun t => t.1.regs = s.regs ∧ t.1.dataPending = s.dataPending)
      hStep links (s, changed, computed.getD []) ⟨rfl, rfl⟩

theorem notifyProperties_eq (s : Store) (changed old : Option JSObj) :
    ∃ ch ol, s.notifyProperties changed old = (s.commitNotify, some (ch, ol)) := by
  refine ⟨(match s.dataInterim with
           | some i => some (mixin i (changed.getD []))
           | none => changed),
          (match s.dataInterimOld with
           | some i => some (mixin i (old.getD []))
           | none => old), ?_⟩
  unfold Store.notifyProperties Store.commitNotify
  simp

theorem flushClients_state (s : Store) : (s.flushClients).dataPendingClients = false ∧
    (s.flushClients).dataPending = s.dataPending ∧
    (s.flushClients).observeMap = s.observeMap ∧
    (s.flushClients).trace = s.trace := by
  unfold Store.flushClients
  split <;> simp_all

theorem propertiesChanged_quiescent (fuel : Nat) (s : Store)
    (changedProps oldProps : Option JSObj) (s' : Store)
    (hwf : s.WFObserve) (hp : s.dataPending = none)
    (h : s.propertiesChanged fuel changedProps oldProps = .ok s') :
    s'.dataPending = none ∧ s'.dataPendingClients = false := by
  unfold Store.propertiesChanged at h
  set s0 := s.push (.flushChanged (changedProps.getD [])) with hs0
  have hp0 : s0.dataPending = none := hp
  have hwf0 : s0.observeMap = s.observeMap := rfl
  cases hR : s0.runComputedEffects fuel changedProps oldProps with
  | thrown m => simp only [hR] at h; cases h
  | fuelOut => simp only [hR] at h; cases h
  | ok t =>
    obtain ⟨s1, c1, o1, cp1⟩ := t
    simp only [hR] at h
    have hRes := runComputedEffects_ok fuel s0 changedProps oldProps
      s1 c1 o1 cp1 hp0 hR
    obtain ⟨hregs1, hpend1⟩ := hRes
    obtain ⟨-, -, hObs1, -, -, -, -, -, -, -, -, -, -, -, -, -⟩ :=
      runEffects_regs_fields _ _ hregs1
    cases hL : s1.computeLinkedPaths c1 cp1 with
    | mk s2 rest2 =>
      obtain ⟨c2, cp2⟩ := rest2
      have hLS := computeLinkedPaths_state s1 c1 cp1
      rw [hL] at hLS
      obtain ⟨hregs2, hpend2⟩ := hLS
      obtain ⟨-, -, hObs2, -, -, -, -, -, -, -, -, -, -, -, -, -⟩ :=
        runEffects_regs_fields _ _ hregs2
      obtain ⟨ch, ol, hN⟩ := notifyProperties_eq s2 c2 o1
      simp only [hL, hN] at h
      have hflush := flushClients_state s2.commitNotify
      obtain ⟨hCliF, hPendF, hObsF, -⟩ := hflush
      cases hO : (s2.commitNotify.flushClients).runEffects .observe ch ol with
      | mk s4 ran4 =>
        simp only [hO] at h
        simp only [Res.ok.injEq] at h
        subst h
        have hObsChain : (s2.commitNotify.flushClients).observeMap = s.observeMap := by
          rw [hObsF]
          show s2.observeMap = s.observeMap
          rw [hObs2, hObs1, hwf0]
        have hPendChain : (s2.commitNotify.flushClients).dataPending = none := by
          rw [hPendF]
          show s2.dataPending = none
          rw [hpend2, hpend1]
        cases hM : (s2.commitNotify.flushClients).observeMap with
        | none =>
          have hNone := runEffects_none (s2.commitNotify.flushClients) .observe ch ol
            (by simp [Store.typeMap, hM])
          rw [hNone] at hO
          simp at hO
          obtain ⟨h4, -⟩ := hO
          subst h4
          exact ⟨hPendChain, hCliF⟩
        | some m =>
          have hwfm : WFMap m := hwf m (by rw [← hObsChain, hM])
          obtain ⟨evs, st, uid, hfr⟩ := runEffects_frame (s2.commitNotify.flushClients)
            .observe ch ol m (by simp [Store.typeMap, hM]) hwfm
          rw [hO] at hfr
          have h4 : s4 = _ := hfr
          rw [h4]
          exact ⟨hPendChain, hCliF⟩

/-- C6: flush is idempotent on a quiescent store.  (1) A completed flush
(with a well-formed OBSERVE registry — which `mkStore` guarantees) leaves
no pending data and no pending clients.  (2) Calling `_flushProperties`
again in that state returns the store unchanged: in particular no
`_propertiesChanged`, hence zero observer invocations (the trace is
unchanged). -/
theorem C6_idempotent_flush :
    (∀ (fuel : Nat) (s s' : Store), s.WFObserve →
      s.flushProperties fuel false = .ok s' →
      s'.dataPending = none ∧ s'.dataPendingClients = false) ∧
    (∀ (fuel : Nat) (s : Store), s.dataInitialized = true →
      s.dataPending = none → s.dataPendingClients = false →
      s.flushProperties fuel false = .ok s) := by
  constructor
  · intro fuel s s' hwf h
    simp only [Store.flushProperties] at h
    generalize hsi : (if !s.dataInitialized then s.readyFn else s) = si at h
    have hObsSi : si.observeMap = s.observeMap := by
      rw [← hsi]; split <;> rfl
    split at h
    · split at h
      · rename_i x hP
        simp only [Res.ok.injEq] at h
        subst h
        refine propertiesChanged_quiescent fuel _ _ _ x ?_ rfl hP
        intro m hm
        have hm2 : si.observeMap = some m := hm
        rw [hObsSi] at hm2
        exact hwf m hm2
      · rename_i hcase
        exact absurd h (hcase s')
    · rename_i hg
      simp only [Res.ok.injEq] at h
      subst h
      simp only [Bool.or_eq_true, not_or, Bool.not_eq_true] at hg
      obtain ⟨h1, h2⟩ := hg
      refine ⟨?_, h2⟩
      cases hP : si.dataPending with
      | none => rfl
      | some p => rw [hP] at h1; simp at h1
  · intro fuel s hinit hp hc
    simp [Store.flushProperties, hinit, hp, hc]

/-- Witness for C6: a concrete initialized quiescent store flushes to
itself. -/
theorem C6_idempotent_flush_witness :
    Store.flushProperties 0 { dataInitialized := true } false =
      .ok { dataInitialized := true } :=
  C6_idempotent_flush.2 0 { dataInitialized := true } rfl rfl rfl

/-- C5 counterexample: on a path whose array does not exist, `push` does
not silently no-op — `array.length` on the `undefined` result of
`Path.get` throws a `TypeError` (so no `Res.ok` outcome exists). -/
theorem C5_counterexample :
    Store.pushOp 9 { dataInitialized := true } "missing" [JSVal.num 123] =
      .thrown "TypeError" ∧
    (∀ r, Store.pushOp 9 { dataInitialized := true } "missing"
      [JSVal.num 123] ≠ Res.ok r) := by
  refine ⟨rfl, ?_⟩
  intro r h
  rw [show Store.pushOp 9 { dataInitialized := true } "missing" [JSVal.num 123]
      = .thrown "TypeError" from rfl] at h
  cases h

/-- C5 amended: a deep `get` yields `undefined` once a segment is missing
(the walk absorbs `undefined`), but every array mutator on a path that
resolves to `undefined` throws a `TypeError` instead of no-opping. -/
theorem C5_mutators_throw_on_missing :
    (∀ (segs : List String), walkPath JSVal.undef segs = JSVal.undef) ∧
    (∀ (fuel : Nat) (s : Store) (path : String) (items : List JSVal),
      s.pathGet path = .undef →
      s.pushOp fuel path items = .thrown "TypeError" ∧
      s.popOp fuel path = .thrown "TypeError" ∧
      s.shiftOp fuel path = .thrown "TypeError" ∧
      s.unshiftOp fuel path items = .thrown "TypeError" ∧
      (∀ (start : JSNum) (dc : Int),
        s.spliceOp fuel path start dc items = .thrown "TypeError") ∧
      (∀ (v : JSVal), s.spliceByValueOp fuel path v = .thrown "TypeError")) := by
  constructor
  · intro segs
    induction segs with
    | nil => rfl
    | cons seg rest ih => simp [walkPath, containerGet, ih]
  · intro fuel s path items h
    refine ⟨?_, ?_, ?_, ?_, ?_, ?_⟩
    · simp [Store.pushOp, h]
    · simp [Store.popOp, h]
    · simp [Store.shiftOp, h]
    · simp [Store.unshiftOp, h]
    · intro start dc; simp [Store.spliceOp, h]
    · intro v; simp [Store.spliceByValueOp, h]

/-- Witness for C5 amended: the concrete missing-path store. -/
theorem C5_mutators_throw_on_missing_witness :
    Store.popOp 9 { dataInitialized := true } "missing" = .thrown "TypeError" :=
  ((C5_mutators_throw_on_missing.2 9 { dataInitialized := true } "missing"
    [] rfl).2).1

theorem JSObj.get_set_self (o : JSObj) (k : String) (v : JSVal) :
    (o.set k v).get k = v := by
  induction o with
  | nil => simp [JSObj.set, JSObj.get]
  | cons kv rest ih =>
    simp only [JSObj.set]
    split
    · rename_i h
      simp [JSObj.get, h]
    · rename_i h
      simp [JSObj.get, h, ih]

theorem shouldPropChange_of_object (p : String) (v old : JSVal)
    (h : typeofObject v = true) : shouldPropChange p v old = true := by
  simp [shouldPropChange, h]

theorem setPendingProperty_false (s : Store) (p : String) (v : JSVal)
    (h : (s.setPendingProperty p v).2 = false) :
    (s.setPendingProperty p v).1 = s := by
  unfold Store.setPendingProperty at h ⊢
  by_cases hobj : typeofObject v = true
  · exfalso
    simp only [hobj, if_true] at h
    rw [shouldPropChange_of_object p v _ hobj] at h
    simp at h
  · simp only [Bool.not_eq_true] at hobj
    simp only [hobj, Bool.false_eq_true, if_false] at h ⊢
    by_cases hch : shouldPropChange p v (s.data.get p) = true
    · simp only [hch, if_true] at h
      simp at h
    · simp only [Bool.not_eq_true] at hch
      simp only [hch, Bool.false_eq_true, if_false]

theorem setPendingProperty_true (s : Store) (p : String) (v : JSVal)
    (hPend : s.dataPending = none)
    (h : (s.setPendingProperty p v).2 = true) :
    ((s.setPendingProperty p v).1).dataPending = some [(p, v)] ∧
    ((s.setPendingProperty p v).1).data.get p = v := by
  simp only [Store.setPendingProperty] at h ⊢
  by_cases hobj : typeofObject v = true
  · simp only [hobj, if_true] at h ⊢
    by_cases hch : shouldPropChange p v
        (JSObj.get (List.map (fun kv =>
          if Path.isDescendant p kv.1 = true then (kv.1, JSVal.undef) else kv)
          s.data) p) = true
    · simp [hch, hPend, JSObj.hasKey, JSObj.set, JSObj.get_set_self]
    · simp only [Bool.not_eq_true] at hch
      simp only [hch, Bool.false_eq_true, if_false] at h
  · simp only [Bool.not_eq_true] at hobj
    simp only [hobj, Bool.false_eq_true, if_false] at h ⊢
    by_cases hch : shouldPropChange p v (s.data.get p) = true
    · simp [hch, hPend, JSObj.hasKey, JSObj.set, JSObj.get_set_self]
    · simp only [Bool.not_eq_true] at hch
      simp only [hch, Bool.false_eq_true, if_false] at h

theorem computeLinkedPaths_none (s : Store) (c cp : Option JSObj)
    (h : s.dataLinkedPaths = none) : s.computeLinkedPaths c cp = (s, c, cp) := by
  unfold Store.computeLinkedPaths
  rw [h]

theorem flushClients_false (s : Store) (h : s.dataPendingClients = false) :
    s.flushClients = s := by
  simp [Store.flushClients, h]

theorem setPendingProperty_trace (s : Store) (p : String) (v : JSVal) :
    ((s.setPendingProperty p v).1).trace = s.trace := by
  simp only [Store.setPendingProperty]
  repeat' split
  all_goals rfl

theorem runComputedEffects_none (fuel : Nat) (s : Store)
    (c o : Option JSObj) (h : s.computeMap = none) :
    s.runComputedEffects fuel c o = .ok (s, c, o, none) := by
  unfold Store.runComputedEffects
  simp [h]

theorem notifyProperties_none_interim (s : Store) (c o : Option JSObj)
    (hi : s.dataInterim = none) (hio : s.dataInterimOld = none) :
    s.notifyProperties c o = (s.commitNotify, some (c, o)) := by
  unfold Store.notifyProperties Store.commitNotify
  simp [hi, hio]

theorem propertiesChanged_structural (fuel : Nat) (t : Store) (chg : JSObj)
    (op : Option JSObj) (hCli : t.dataPendingClients = false)
    (hCmp : t.computeMap = none) (hLink : t.dataLinkedPaths = none)
    (hInt : t.dataInterim = none) (hIntO : t.dataInterimOld = none)
    (hwf : t.WFObserve) :
    ∃ s', t.propertiesChanged fuel (some chg) op = .ok s' ∧
      s'.dataPending = t.dataPending ∧ s'.dataPendingClients = false ∧
      s'.computeMap = none ∧ s'.dataLinkedPaths = none ∧
      s'.dataInterim = none ∧ s'.dataInterimOld = none ∧
      s'.dataInitialized = t.dataInitialized ∧
      s'.asyncEffects = t.asyncEffects ∧
      s'.observeMap = t.observeMap ∧ s'.data = t.data ∧
      (∀ ev ∈ t.trace, ev ∈ s'.trace) ∧
      TraceEv.flushChanged chg ∈ s'.trace := by
  simp only [Store.propertiesChanged, Option.getD_some]
  rw [runComputedEffects_none fuel (t.push (.flushChanged chg)) (some chg) op hCmp]
  simp only []
  rw [computeLinkedPaths_none (t.push (.flushChanged chg)) (some chg) none hLink]
  simp only []
  rw [notifyProperties_none_interim (t.push (.flushChanged chg)) (some chg) op hInt hIntO]
  simp only []
  rw [flushClients_false ((t.push (.flushChanged chg)).commitNotify) hCli]
  cases hO : ((t.push (.flushChanged chg)).commitNotify).runEffects .observe
      (some chg) op with
  | mk s4 ran4 =>
    simp only [hO]
    cases hM : t.observeMap with
    | none =>
      have hNone := runEffects_none ((t.push (.flushChanged chg)).commitNotify)
        .observe (some chg) op (by simp [Store.typeMap]; exact hM)
      rw [hNone] at hO
      simp only [Prod.mk.injEq] at hO
      obtain ⟨h4, -⟩ := hO
      subst h4
      refine ⟨_, rfl, rfl, hCli, hCmp, hLink, rfl, rfl, rfl, rfl, hM, rfl,
        ?_, ?_⟩
      · intro ev hev
        exact List.mem_cons_of_mem _ hev
      · exact List.mem_cons_self _ _
    | some m =>
      have hwfm : WFMap m := hwf m hM
      obtain ⟨evs, st, uid, hfr⟩ := runEffects_frame
        ((t.push (.flushChanged chg)).commitNotify) .observe (some chg) op m
        (by simp [Store.typeMap]; exact hM) hwfm
      rw [hO] at hfr
      have h4 : s4 = _ := hfr
      subst h4
      refine ⟨_, rfl, rfl, hCli, hCmp, hLink, rfl, rfl, rfl, rfl, hM, rfl,
        ?_, ?_⟩
      · intro ev hev
        exact List.mem_append_right _ (List.mem_cons_of_mem _ hev)
      · exact List.mem_append_right _ (List.mem_cons_self _ _)

theorem flushProperties_structural (fuel : Nat) (t : Store) (chg : JSObj)
    (fromAbove : Bool) (hPend : t.dataPending = some chg)
    (hCli : t.dataPendingClients = false) (hCmp : t.computeMap = none)
    (hLink : t.dataLinkedPaths = none) (hInt : t.dataInterim = none)
    (hIntO : t.dataInterimOld = none) (hInit : t.dataInitialized = true)
    (hwf : t.WFObserve) :
    ∃ s', t.flushProperties fuel fromAbove = .ok s' ∧
      s'.dataPending = none ∧ s'.dataPendingClients = false ∧
      s'.computeMap = none ∧ s'.dataLinkedPaths = none ∧
      s'.dataInterim = none ∧ s'.dataInterimOld = none ∧
      s'.dataInitialized = true ∧ s'.asyncEffects = t.asyncEffects ∧
      s'.observeMap = t.observeMap ∧ s'.data = t.data ∧
      (∀ ev ∈ t.trace, ev ∈ s'.trace) ∧
      TraceEv.flushChanged chg ∈ s'.trace := by
  obtain ⟨s4, hPC, hP4, hC4, hM4, hL4, hI4, hIO4, hIn4, hA4, hO4, hD4, hT4,
      hF4⟩ :=
    propertiesChanged_structural fuel
      { t with dataFromAbove := fromAbove, dataPending := none,
               dataInitialized := true } chg
      t.dataOld hCli hCmp hLink hInt hIntO hwf
  simp only [Store.flushProperties, hInit, Bool.not_true, Bool.false_eq_true,
    if_false, hPend, Option.isSome_some, Bool.true_or, if_true]
  rw [hPC]
  exact ⟨_, rfl, hP4, hC4, hM4, hL4, hI4, hIO4, hIn4, hA4, hO4,
    hD4, hT4, hF4⟩

theorem setProperty_structural (fuel : Nat) (s : Store) (p : String)
    (v : JSVal) (hS : StructuralState s) (hwf : s.WFObserve) :
    ∃ s', s.setProperty fuel p v = .ok s' ∧ StructuralState s' ∧
      s'.observeMap = s.observeMap ∧ (∀ ev ∈ s.trace, ev ∈ s'.trace) ∧
      ((s.setPendingProperty p v).2 = true →
        s'.data = ((s.setPendingProperty p v).1).data ∧
        TraceEv.flushChanged [(p, v)] ∈ s'.trace) ∧
      ((s.setPendingProperty p v).2 = false → s' = s) := by
  obtain ⟨hPend, hCli, hCmp, hLink, hInt, hIntO, hInit, hAsync⟩ := hS
  have hregs := setPendingProperty_regs s p v
  have htrace := setPendingProperty_trace s p v
  have hfalse := setPendingProperty_false s p v
  have htrue := setPendingProperty_true s p v hPend
  unfold Store.setProperty
  cases hE : s.setPendingProperty p v with
  | mk s1 changed =>
    have h1 : (s.setPendingProperty p v).1 = s1 := by rw [hE]
    have h2 : (s.setPendingProperty p v).2 = changed := by rw [hE]
    rw [h1] at hregs htrace
    obtain ⟨hAny1, hCmp1, hObs1, -, hCli1, hInit1, hAsync1, hLink1, hInt1,
      hIntO1, -, -, -, -, -, -⟩ := runEffects_regs_fields _ _ hregs
    cases changed with
    | false =>
      have hs1 : s1 = s := by rw [← h1]; exact hfalse (by rw [h2])
      refine ⟨s1, rfl, ?_, ?_, ?_, fun h => Bool.noConfusion h, fun _ => hs1⟩
      · rw [hs1]
        exact ⟨hPend, hCli, hCmp, hLink, hInt, hIntO, hInit, hAsync⟩
      · rw [hs1]
      · intro ev hev
        rw [hs1]
        exact hev
    | true =>
      obtain ⟨hPend1, -⟩ := htrue (by rw [h2])
      rw [h1] at hPend1
      have hwf1 : s1.WFObserve := fun m hm => hwf m (hObs1.symm.trans hm)
      obtain ⟨s', hFl, hP', hC', hM', hL', hI', hIO', hIn', hA', hO', hD',
        hT', hF'⟩ :=
        flushProperties_structural fuel s1 [(p, v)] false hPend1
          (hCli1.trans hCli) (hCmp1.trans hCmp) (hLink1.trans hLink)
          (hInt1.trans hInt) (hIntO1.trans hIntO) (hInit1.trans hInit) hwf1
      have hInv : s1.invalidateProperties fuel = s1.flushProperties fuel false := by
        simp [Store.invalidateProperties, hInit1.trans hInit,
          hAsync1.trans hAsync]
      refine ⟨s', hInv.trans hFl, ⟨hP', hC', hM', hL', hI', hIO', hIn',
        hA'.trans (hAsync1.trans hAsync)⟩, hO'.trans hObs1, ?_,
        fun _ => ⟨hD', hF'⟩, fun h => Bool.noConfusion h⟩
      intro ev hev
      exact hT' ev (by rw [htrace]; exact hev)

theorem JSObj.get_set_ne (o : JSObj) (k k' : String) (v : JSVal)
    (h : k ≠ k') : (o.set k v).get k' = o.get k' := by
  induction o with
  | nil => simp [JSObj.set, JSObj.get, h]
  | cons kv rest ih =>
    simp only [JSObj.set]
    split
    · rename_i he
      simp only [beq_iff_eq] at he
      subst he
      simp [JSObj.get, h]
    · simp only [JSObj.get, ih]

theorem append_splices_ne_length (path : String) :
    path ++ ".splices" ≠ path ++ ".length" := by
  intro h
  have h2 : (path ++ ".splices").data = (path ++ ".length").data := congrArg _ h
  rw [String.data_append, String.data_append] at h2
  have h3 := List.append_cancel_left h2
  simp at h3

theorem setPendingProperty_object_snd (s : Store) (p : String) (v : JSVal)
    (h : typeofObject v = true) : (s.setPendingProperty p v).2 = true := by
  simp only [Store.setPendingProperty, h, if_true]
  rw [shouldPropChange_of_object p v _ h]
  simp

theorem setPendingProperty_snd (s : Store) (p : String) (v : JSVal)
    (hobj : typeofObject v = false) :
    (s.setPendingProperty p v).2 = shouldPropChange p v (s.data.get p) := by
  simp only [Store.setPendingProperty, hobj, Bool.false_eq_true, if_false]
  by_cases hch : shouldPropChange p v (s.data.get p) = true
  · simp [hch]
  · simp only [Bool.not_eq_true] at hch
    simp [hch]

theorem strictEq_num_eq (old : JSVal) (q : ℚ)
    (h : strictEq old (.num q) = true) : old = .num q := by
  cases old <;> simp_all [strictEq]

theorem shouldPropChange_num_false (p : String) (q : ℚ) (old : JSVal)
    (h : shouldPropChange p (.num q) old = false) : old = .num q := by
  refine strictEq_num_eq old q ?_
  simp only [shouldPropChange, typeofObject, Bool.or_false] at h
  have h2 : strictEq (.num q) (.num q) = true := by simp [strictEq]
  rw [h2, Bool.or_true, Bool.and_true] at h
  simpa using h

/-- C8: `notifySplices(path, splices)` on an existing array sets the
property `path + '.splices'` to `{indexSplices: splices}` through the
normal pending/flush path (its flush event appears in the trace), then
sets `path + '.length'` to the array's current length, and immediately
after enqueuing nulls the splice record, so the final data maps
`path + '.splices'` to `{indexSplices: null}`. -/
theorem C8_notifySplices (fuel : Nat) (s : Store) (path : String)
    (splices : JSVal) (elems : List JSVal) (hS : StructuralState s)
    (hwf : s.WFObserve) (harr : s.pathGet path = .arr elems) :
    ∃ s', s.notifySplicesOp fuel path splices = .ok s' ∧
      s'.data.get (path ++ ".splices") = .obj [("indexSplices", .null)] ∧
      s'.data.get (path ++ ".length") = .num elems.length ∧
      TraceEv.flushChanged [(path ++ ".splices",
        .obj [("indexSplices", splices)])] ∈ s'.trace := by
  obtain ⟨s1, hEq1, hS1, hO1, hT1, hChg1, -⟩ :=
    setProperty_structural fuel s (path ++ ".splices")
      (.obj [("indexSplices", splices)]) hS hwf
  obtain ⟨hD1, hF1⟩ := hChg1 (setPendingProperty_object_snd s _ _ rfl)
  have hwf1 : s1.WFObserve := fun m hm => hwf m (hO1.symm.trans hm)
  obtain ⟨s2, hEq2, hS2, hO2, hT2, hChg2, hNo2⟩ :=
    setProperty_structural fuel s1 (path ++ ".length")
      (.num elems.length) hS1 hwf1
  refine ⟨{ s2 with data := s2.data.set (path ++ ".splices") (.obj [("indexSplices", .null)]) }, ?_, ?_, ?_, ?_⟩
  · unfold Store.notifySplicesOp
    rw [harr]
    simp only [notifySplicesData, hEq1, Res.bind, hEq2]
  · exact JSObj.get_set_self ..
  · rw [JSObj.get_set_ne _ _ _ _ (append_splices_ne_length path)]
    by_cases hc : (s1.setPendingProperty (path ++ ".length")
        (.num elems.length)).2 = true
    · obtain ⟨hD2, -⟩ := hChg2 hc
      rw [hD2]
      exact (setPendingProperty_true s1 _ _ hS1.1 hc).2
    · simp only [Bool.not_eq_true] at hc
      rw [hNo2 hc]
      have hsnd := setPendingProperty_snd s1 (path ++ ".length")
        (.num elems.length) rfl
      rw [hc] at hsnd
      exact shouldPropChange_num_false _ _ _ hsnd.symm
  · exact hT2 _ hF1

theorem C8_notifySplices_witness :
    ∃ s', c8Store.notifySplicesOp 3 "a" (.arr []) = .ok s' ∧
      s'.data.get ("a" ++ ".splices") = .obj [("indexSplices", .null)] ∧
      s'.data.get ("a" ++ ".length") = .num ((2 : Nat) : ℚ) ∧
      TraceEv.flushChanged [("a" ++ ".splices",
        .obj [("indexSplices", JSVal.arr [])])] ∈ s'.trace :=
  C8_notifySplices 3 c8Store "a" (.arr []) [.num 1, .num 2]
    ⟨rfl, rfl, rfl, rfl, rfl, rfl, rfl, rfl⟩
    (fun _ hm => Option.noConfusion hm) rfl

/-- C7 counterexample: the code computes `len - floor(-start)` for a
negative start, with no clamp to 0 — for `start = -5/2` on length 10 that
is 8 where the spec's `max(0, len + ceil(-start)·(-1))` gives 7, and for
`start = -5` on length 1 the code's -4 differs from the spec's 0; the
end-to-end `splice` run delivers the splice record with the unclamped
index -4. -/
theorem C7_counterexample :
    spliceNormStart 10 (.val (mkRat (-5) 2)) = 8 ∧
    specSpliceStart 10 (.val (mkRat (-5) 2)) = 7 ∧
    spliceNormStart 1 (.val (-5)) = -4 ∧
    specSpliceStart 1 (.val (-5)) = 0 ∧
    resTracePair c7run =
      [.flushChanged [("a.length", .num 0)],
       .flushChanged [("a.splices", .obj [("indexSplices", .arr
         [.obj [("index", .num (-4)), ("addedCount", .num 0),
                ("removed", .arr [.str "x"]), ("object", .arr []),
                ("type", .str "splice")]])])]] :=
  ⟨rfl, rfl, rfl, rfl, rfl⟩

/-- C7 (amended): the code's `start` normalization in `splice` is
`len - floor(-start)` for negative starts (floor of the magnitude, not
ceil, and without clamping to 0), `floor start` for non-negative starts,
and 0 for a falsy (`NaN`) start; the splice record's index is this
normalized, unclamped value (see `spliceOp`). -/
theorem C7_splice_start_normalization :
    (∀ (len : Nat) (q : ℚ), q < 0 →
      spliceNormStart len (.val q) = (len : Int) - Int.floor (-q)) ∧
    (∀ (len : Nat) (q : ℚ), 0 ≤ q →
      spliceNormStart len (.val q) = Int.floor q) ∧
    (∀ len : Nat, spliceNormStart len .nan = 0) := by
  refine ⟨fun len q h => ?_, fun len q h => ?_, fun len => rfl⟩
  · simp [spliceNormStart, h]
  · simp [spliceNormStart, not_lt.2 h]

theorem C7_splice_start_normalization_witness :
    spliceNormStart 1 (.val (-5)) = (1 : Int) - Int.floor (-(-5 : ℚ)) ∧
    spliceNormStart 10 (.val (mkRat 5 2)) = Int.floor (mkRat 5 2 : ℚ) :=
  ⟨C7_splice_start_normalization.1 1 (-5) (by decide),
   C7_splice_start_normalization.2.1 10 (mkRat 5 2) (by decide)⟩

/-- C4 counterexample: with the root property `a` read-only, the public
`set("a.b", 2)` is not a no-op — the read-only guard tests the full path
string `"a.b"`, which carries no READ_ONLY marker, so the write mutates
the tree and fires a notification.  (A write to the root path `"a"`
itself is correctly ignored.) -/
theorem C4_counterexample :
    c4Store.hasReadOnlyEffect "a" = true ∧
    resIsOk (c4Store.setOp 3 "a.b" (.num 2)) = true ∧
    resData (c4Store.setOp 3 "a.b" (.num 2)) =
      [("a", .obj [("b", .num 2)]), ("a.b", .num 2)] ∧
    resTrace (c4Store.setOp 3 "a.b" (.num 2)) =
      [.flushChanged [("a.b", .num 2)]] ∧
    resData (c4Store.setOp 3 "a" (.num 9)) = [("a", .obj [("b", .num 1)])] ∧
    resTrace (c4Store.setOp 3 "a" (.num 9)) = [] :=
  ⟨rfl, rfl, rfl, rfl, rfl, rfl⟩

/-- C4 (amended): the public `set(path, value)` with no root argument is a
silent no-op exactly when the full path string carries the READ_ONLY
marker (`_hasReadOnlyEffect(path)`): the store is returned unchanged, no
exception, no notification.  Deep paths under a read-only root are not
guarded. -/
theorem C4_readonly_set_noop (fuel : Nat) (s : Store) (path : String)
    (v : JSVal) (h : s.hasReadOnlyEffect path = true) :
    s.setOp fuel path v = .ok s := by
  simp [Store.setOp, h]

theorem C4_readonly_set_noop_witness :
    c4Store.setOp 3 "a" (.num 9) = .ok c4Store :=
  C4_readonly_set_noop 3 c4Store "a" (.num 9) rfl

/-- C3 counterexample: in the change cycle `a : "A" → "B"` of the diamond
configuration, `d` is written twice (first `"BA!"` against the stale `c`,
then `"BB!"`); the newest observe event delivers `oldValue = "BA!"` to
`d`'s observer, but `data.d` at the start of that cycle was `"AA!"` — the
old value recorded at the first write was overwritten by the later write
of the same cycle. -/
theorem C3_counterexample :
    JSObj.get (resData c3Ready) "d" = .str "AA!" ∧
    (resTrace c3Run).head? =
      some (.observe "_obs" (.str "BB!") (.str "BA!") "d") ∧
    "AA!" ≠ "BA!" :=
  ⟨rfl, rfl, by decide⟩

/-- C3 (amended): within a single pending epoch (while `__dataPending` is
non-null), an existing entry `old[p]` is never overwritten by a later
write of `p`; the cycle-start stability claimed by the spec fails only
across the per-pass epochs opened by the compute fixpoint, which reset
`__dataOld`. -/
theorem C3_old_value_stability (s : Store) (p : String) (v : JSVal)
    (pend o : JSObj) (hPend : s.dataPending = some pend)
    (hOld : s.dataOld = some o) (hHas : o.hasKey p = true) :
    ((s.setPendingProperty p v).1).dataOld = some o := by
  simp only [Store.setPendingProperty]
  by_cases hobj : typeofObject v = true <;>
    simp only [hobj, if_true, Bool.false_eq_true, if_false] <;>
    split <;>
    simp [hPend, hOld, hHas]

theorem C3_old_value_stability_witness :
    ((c3wStore.setPendingProperty "p" (.num 2)).1).dataOld =
      some [("p", JSVal.num 0)] :=
  C3_old_value_stability c3wStore "p" (.num 2) [("p", JSVal.num 1)]
    [("p", JSVal.num 0)] rfl rfl rfl

theorem setPendingProperty_stamps (s : Store) (p : String) (v : JSVal) :
    ((s.setPendingProperty p v).1).stamps = s.stamps := by
  simp only [Store.setPendingProperty]
  repeat' split
  all_goals rfl

theorem setPropertyFromComputation_stamps (s : Store) (p : String)
    (v : JSVal) : (s.setPropertyFromComputation p v).stamps = s.stamps := by
  unfold Store.setPropertyFromComputation
  split
  · exact setPendingProperty_stamps ..
  · rfl

theorem setPropertyFromComputation_trace (s : Store) (p : String)
    (v : JSVal) : (s.setPropertyFromComputation p v).trace = s.trace := by
  unfold Store.setPropertyFromComputation
  split
  · exact setPendingProperty_trace ..
  · rfl

theorem runMethodEffect_stamps (s : Store) (fx : Effect) (prop : String)
    (v : JSVal) : ((s.runMethodEffect fx prop v).1).stamps = s.stamps := by
  obtain ⟨evs, h⟩ := runMethodEffect_fst s fx prop v
  rw [h]

theorem runMethodEffect_count (i : Nat) (s : Store) (fx : Effect)
    (prop : String) (v : JSVal) :
    dispatchCount i ((s.runMethodEffect fx prop v).1).trace =
      dispatchCount i s.trace := by
  simp only [Store.runMethodEffect, Store.push]
  repeat' split
  all_goals simp [dispatchCount, List.countP_cons, isDispatchOf]

theorem runFx_stamps (s : Store) (fx : Effect) (prop : String)
    (v old : JSVal) : (s.runFx fx prop v old).stamps = s.stamps := by
  unfold Store.runFx
  split
  · split <;> rfl
  · exact runMethodEffect_stamps ..
  · cases hE : s.runMethodEffect fx prop v with
    | mk s2 r =>
      simp only []
      rw [setPropertyFromComputation_stamps]
      have h2 : s2 = (s.runMethodEffect fx prop v).1 := by rw [hE]
      rw [h2, runMethodEffect_stamps]

theorem runFx_count (i : Nat) (s : Store) (fx : Effect) (prop : String)
    (v old : JSVal) :
    dispatchCount i (s.runFx fx prop v old).trace =
      dispatchCount i s.trace := by
  unfold Store.runFx
  split
  · split <;> simp [Store.push, dispatchCount, List.countP_cons, isDispatchOf]
  · exact runMethodEffect_count ..
  · cases hE : s.runMethodEffect fx prop v with
    | mk s2 r =>
      simp only []
      rw [setPropertyFromComputation_trace]
      have h2 : s2 = (s.runMethodEffect fx prop v).1 := by rw [hE]
      rw [h2, runMethodEffect_count]

theorem dispatchFx_stamps_none (s : Store) (fx : Effect) (id : Nat)
    (prop : String) (old : JSVal) (hinfo : fx.infoId = none) :
    (s.dispatchFx fx id prop old).stamps = s.stamps ∧
    ∀ i, dispatchCount i (s.dispatchFx fx id prop old).trace =
      dispatchCount i s.trace := by
  simp only [Store.dispatchFx, hinfo]
  constructor
  · rw [runFx_stamps]
    rfl
  · intro i
    rw [runFx_count]
    simp [Store.push, dispatchCount, List.countP_cons, isDispatchOf, hinfo]

theorem dispatchFx_stamps_some (s : Store) (fx : Effect) (id j : Nat)
    (prop : String) (old : JSVal) (hinfo : fx.infoId = some j) :
    (∀ k, (s.dispatchFx fx id prop old).stamps k =
      if k = j then some id else s.stamps k) ∧
    ∀ i, dispatchCount i (s.dispatchFx fx id prop old).trace =
      dispatchCount i s.trace + (if j = i then 1 else 0) := by
  constructor
  · intro k
    simp only [Store.dispatchFx, hinfo, runFx_stamps, Store.push]
  · intro i
    simp only [Store.dispatchFx, hinfo]
    rw [runFx_count]
    simp only [Store.push, dispatchCount, List.countP_cons, isDispatchOf,
      hinfo]
    by_cases hji : j = i
    · simp [hji]
    · simp [hji, Nat.add_comm]

theorem runFxList_dispatch_inv (i id : Nat) (prop : String) (old : JSVal)
    (fxs : List Effect) : ∀ u : Store,
    dispatchCount i u.trace ≤
      dispatchCount i ((u.runFxList fxs id prop old).1).trace ∧
    dispatchCount i ((u.runFxList fxs id prop old).1).trace ≤
      dispatchCount i u.trace + (if u.stamps i = some id then 0 else 1) ∧
    (dispatchCount i u.trace <
        dispatchCount i ((u.runFxList fxs id prop old).1).trace →
      ((u.runFxList fxs id prop old).1).stamps i = some id) ∧
    (u.stamps i = some id →
      ((u.runFxList fxs id prop old).1).stamps i = some id) := by
  induction fxs with
  | nil =>
    intro u
    simp [Store.runFxList]
  | cons fx rest ih =>
    intro u
    simp only [Store.runFxList]
    split
    · rename_i hguard
      cases hR : (u.dispatchFx fx id prop old).runFxList rest id prop old with
      | mk s2 b2 =>
        simp only [hR]
        have ihm := ih (u.dispatchFx fx id prop old)
        rw [hR] at ihm
        obtain ⟨ih0, ih1, ih2, ih3⟩ := ihm
        dsimp only at ih0 ih1 ih2 ih3
        cases hinfo : fx.infoId with
        | none =>
          obtain ⟨hst, hct⟩ := dispatchFx_stamps_none u fx id prop old hinfo
          rw [hct i] at ih0 ih1 ih2
          simp only [hst] at ih1 ih3
          exact ⟨ih0, ih1, ih2, ih3⟩
        | some j =>
          rw [hinfo] at hguard
          simp only [Bool.and_eq_true, bne_iff_ne, ne_eq] at hguard
          obtain ⟨-, hne⟩ := hguard
          obtain ⟨hst, hct⟩ := dispatchFx_stamps_some u fx id j prop old hinfo
          rw [hct i] at ih0 ih1 ih2
          by_cases hji : j = i
          · subst hji
            have hsti : (u.dispatchFx fx id prop old).stamps j = some id := by
              rw [hst j]
              simp
            rw [if_pos rfl] at ih0 ih1 ih2
            simp only [hsti] at ih1 ih3
            have h3 := ih3 trivial
            simp at ih1
            rw [if_neg hne]
            refine ⟨by omega, by omega, fun _ => h3, fun h => absurd h hne⟩
          · rw [if_neg hji, Nat.add_zero] at ih0 ih1 ih2
            have hsti : (u.dispatchFx fx id prop old).stamps i = u.stamps i := by
              rw [hst i, if_neg (fun h => hji h.symm)]
            simp only [hsti] at ih1 ih3
            exact ⟨ih0, ih1, ih2, ih3⟩
    · exact ih u

theorem runEffectsForProperty_dispatch_inv (i id : Nat) (effects : EffMap)
    (prop : String) (old : JSVal) (u : Store) :
    dispatchCount i u.trace ≤
      dispatchCount i ((u.runEffectsForProperty effects id prop old).1).trace ∧
    dispatchCount i ((u.runEffectsForProperty effects id prop old).1).trace ≤
      dispatchCount i u.trace + (if u.stamps i = some id then 0 else 1) ∧
    (dispatchCount i u.trace <
        dispatchCount i ((u.runEffectsForProperty effects id prop old).1).trace →
      ((u.runEffectsForProperty effects id prop old).1).stamps i = some id) ∧
    (u.stamps i = some id →
      ((u.runEffectsForProperty effects id prop old).1).stamps i = some id) := by
  simp only [Store.runEffectsForProperty]
  split
  · refine ⟨le_refl _, ?_, fun h => absurd h (lt_irrefl _), fun h => h⟩
    split <;> simp
  · exact runFxList_dispatch_inv i id prop old _ u

theorem runEffectsProps_dispatch_inv (i id : Nat) (effects : EffMap)
    (oldProps : Option JSObj) (props : List (String × JSVal)) :
    ∀ u : Store,
    dispatchCount i u.trace ≤
      dispatchCount i ((u.runEffectsProps effects id props oldProps).1).trace ∧
    dispatchCount i ((u.runEffectsProps effects id props oldProps).1).trace ≤
      dispatchCount i u.trace + (if u.stamps i = some id then 0 else 1) ∧
    (dispatchCount i u.trace <
        dispatchCount i ((u.runEffectsProps effects id props oldProps).1).trace →
      ((u.runEffectsProps effects id props oldProps).1).stamps i = some id) ∧
    (u.stamps i = some id →
      ((u.runEffectsProps effects id props oldProps).1).stamps i = some id) := by
  induction props with
  | nil =>
    intro u
    simp [Store.runEffectsProps]
  | cons pv rest ih =>
    intro u
    simp only [Store.runEffectsProps]
    cases hA : u.runEffectsForProperty effects id pv.1
        (JSObj.getO oldProps pv.1) with
    | mk s1 r1 =>
      cases hB : s1.runEffectsProps effects id rest oldProps with
      | mk s2 r2 =>
        simp only [hA, hB]
        have hfor := runEffectsForProperty_dispatch_inv i id effects pv.1
          (JSObj.getO oldProps pv.1) u
        rw [hA] at hfor
        obtain ⟨a0, a1, a2, a3⟩ := hfor
        have hrest := ih s1
        rw [hB] at hrest
        obtain ⟨b0, b1, b2, b3⟩ := hrest
        dsimp only at a0 a1 a2 a3 b0 b1 b2 b3 ⊢
        by_cases hu : u.stamps i = some id
        · have hs1 : s1.stamps i = some id := a3 hu
          rw [if_pos hu] at a1 ⊢
          rw [if_pos hs1] at b1
          exact ⟨le_trans a0 b0, by omega, fun _ => b3 hs1, fun _ => b3 hs1⟩
        · rw [if_neg hu] at a1 ⊢
          by_cases hs1 : s1.stamps i = some id
          · rw [if_pos hs1] at b1
            have hc : dispatchCount i s1.trace ≤ dispatchCount i u.trace + 1 := a1
            refine ⟨le_trans a0 b0, by omega, fun _ => b3 hs1, fun h => absurd h hu⟩
          · rw [if_neg hs1] at b1
            have ha1' : dispatchCount i s1.trace = dispatchCount i u.trace := by
              rcases Nat.lt_or_ge (dispatchCount i u.trace)
                  (dispatchCount i s1.trace) with hlt | hge
              · exact absurd (a2 hlt) hs1
              · omega
            rw [ha1'] at b0 b1 b2
            exact ⟨b0, b1, b2, fun h => absurd h hu⟩

/-- C9: within a single `runEffects` pass every effect carrying an info
block is dispatched at most once: the pass allocates a fresh id from the
effect-uid counter, stamps it into `info.lastRun` on first dispatch and
skips effects whose stamp already equals the id, so the pass adds at most
one dispatch event per info block to the trace.  The hypothesis is the
stamp/uid invariant every store reachable by the API satisfies (stamps
only ever receive already-consumed pass ids). -/
theorem C9_at_most_once_dispatch (s : Store) (ty : EffType)
    (props oldProps : Option JSObj) (i : Nat)
    (hstamps : ∀ j v, s.stamps j = some v → v < s.effectUid) :
    dispatchCount i (((s.runEffects ty props oldProps).1).trace) ≤
      dispatchCount i s.trace + 1 := by
  simp only [Store.runEffects]
  split
  · simp
  · rename_i effects heff
    have hinv := runEffectsProps_dispatch_inv i s.effectUid effects oldProps
      (props.getD []) { s with effectUid := s.effectUid + 1 }
    obtain ⟨-, h1, -, -⟩ := hinv
    have hne : s.stamps i ≠ some s.effectUid := by
      intro h
      exact absurd (hstamps i s.effectUid h) (lt_irrefl _)
    rw [if_neg hne] at h1
    exact h1

theorem C9_at_most_once_dispatch_witness :
    dispatchCount 0
        (((c9Store.runEffects .observe (some [("p", .num 1)]) none).1).trace) ≤
      dispatchCount 0 c9Store.trace + 1 :=
  C9_at_most_once_dispatch c9Store .observe (some [("p", .num 1)]) none 0
    (fun _ _ h => Option.noConfusion h)

theorem cyclicStore_eq_cycState :
    cyclicStore = cycState [] none [] 0 (fun _ => none) := rfl

theorem cycLoop_fuelOut :
    ∀ (fuel : Nat) (d : JSObj) (dold : Option JSObj) (T : List TraceEv)
      (n : Nat) (st : Nat → Option Nat) (prop : String) (v : JSVal)
      (changed old computed : Option JSObj),
      (prop = "a" ∨ prop = "c") → (∀ j u, st j = some u → u < n) →
      computeLoop fuel (cycState d dold T n st) (some [(prop, v)])
        changed old computed = .fuelOut := by
  intro fuel
  induction fuel with
  | zero => intro d dold T n st prop v changed old computed _ _; rfl
  | succ m ih =>
    intro d dold T n st prop v changed old computed hProp hB
    have hbne : (st 0 != some n) = true := by
      cases hs0 : st 0 with
      | none => rfl
      | some u =>
        simp only [bne_iff_ne, ne_eq, Option.some.injEq]
        exact Nat.ne_of_lt (hB 0 u hs0)
    have hsc : ∀ p o, shouldPropChange p (JSVal.obj []) o = true :=
      fun p o => shouldPropChange_of_object p _ o rfl
    have hB' : ∀ (j u : Nat),
        (fun j => if j = 0 then some n else st j) j = some u → u < n + 1 := by
      intro j u h
      by_cases hj : j = 0
      · subst hj
        simp at h
        omega
      · simp only [if_neg hj] at h
        exact Nat.lt_succ_of_lt (hB j u h)
    rcases hProp with h | h <;> subst h
    · simp only [computeLoop, Store.runEffects, Store.typeMap, cycState,
        Store.runEffectsProps, Store.runEffectsForProperty,
        show EffMap.find cycMap (Path.root "a") = some [cycFx "a"] from rfl,
        Store.runFxList,
        show Path.matchesPath (cycFx "a").path "a" = true from rfl,
        show (cycFx "a").infoId = some 0 from rfl,
        hbne, Bool.true_and, if_true, Store.dispatchFx, Store.runFx,
        show (cycFx "a").kind = EffKind.computed from rfl,
        Store.runMethodEffect,
        show (cycFx "a").methodName = "f" from rfl,
        show cycMethods "f" = some (fun _ => JSVal.obj []) from rfl,
        Store.push,
        show (cycFx "a").methodInfo = some "c" from rfl,
        Option.getD_some, Store.setPropertyFromComputation,
        Store.hasAnyEffect,
        show (EffMap.find cycMap "c").isSome = true from rfl,
        Store.setPendingProperty,
        show typeofObject (JSVal.obj []) = true from rfl,
        hsc, Option.isNone_none, JSObj.hasKey, JSObj.set,
        Bool.true_or, Bool.or_true, Bool.false_eq_true, if_false]
      exact ih _ _ _ (n + 1) _ "c" (.obj []) _ _ _ (Or.inr rfl) hB'
    · simp only [computeLoop, Store.runEffects, Store.typeMap, cycState,
        Store.runEffectsProps, Store.runEffectsForProperty,
        show EffMap.find cycMap (Path.root "c") = some [cycFx "c"] from rfl,
        Store.runFxList,
        show Path.matchesPath (cycFx "c").path "c" = true from rfl,
        show (cycFx "c").infoId = some 0 from rfl,
        hbne, Bool.true_and, if_true, Store.dispatchFx, Store.runFx,
        show (cycFx "c").kind = EffKind.computed from rfl,
        Store.runMethodEffect,
        show (cycFx "c").methodName = "f" from rfl,
        show cycMethods "f" = some (fun _ => JSVal.obj []) from rfl,
        Store.push,
        show (cycFx "c").methodInfo = some "c" from rfl,
        Option.getD_some, Store.setPropertyFromComputation,
        Store.hasAnyEffect,
        show (EffMap.find cycMap "c").isSome = true from rfl,
        Store.setPendingProperty,
        show typeofObject (JSVal.obj []) = true from rfl,
        hsc, Option.isNone_none, JSObj.hasKey, JSObj.set,
        Bool.true_or, Bool.or_true, Bool.false_eq_true, if_false]
      exact ih _ _ _ (n + 1) _ "c" (.obj []) _ _ _ (Or.inr rfl) hB'

/-- On the cyclic configuration the compute fixpoint stage runs out of
any amount of fuel: every pass reruns `c`'s compute effect (an object
result always passes the change test and re-enqueues `c`), so the JS loop
runs forever. -/
theorem cyclic_fuelOut_all :
    ∀ fuel, cyclicStore.runComputedEffects fuel (some [("a", .num 1)]) none
      = .fuelOut := by
  intro fuel
  unfold Store.runComputedEffects
  simp only [show cyclicStore.computeMap.isSome = true from rfl, if_true]
  rw [cyclicStore_eq_cycState]
  exact cycLoop_fuelOut fuel [] none [] 0 (fun _ => none) "a" (.num 1) _
    none none (Or.inl rfl) (fun _ _ h => Option.noConfusion h)

/-- C1 counterexample: on the cyclic configuration `c: computed 'f(a, c)'`
(where `f` returns an object), the compute fixpoint stage never raises any
`ComputedCycle` — no such error exists in the model because none exists in
the code — and does not stop within the spec's suggested hard bound of 100
passes, nor within 1000: each pass re-enqueues `c`, so the loop never
converges (`cyclic_fuelOut_all` proves the run is fuel-out for every
bound). -/
theorem C1_counterexample :
    cyclicStore.runComputedEffects 100 (some [("a", .num 1)]) none
      = .fuelOut ∧
    cyclicStore.runComputedEffects 1000 (some [("a", .num 1)]) none
      = .fuelOut :=
  ⟨cyclic_fuelOut_all 100, cyclic_fuelOut_all 1000⟩

/-- C1 (amended): the compute fixpoint loop performs no cycle detection
and has no iteration bound (no `ComputedCycle` exists in the code): it
returns exactly when a pass reports that no compute effect ran, with the
state of that pass; a configuration that re-enqueues a computed property
on every pass therefore loops forever. -/
theorem C1_compute_loop_exit (fuel : Nat) (s : Store)
    (input changed old computed : Option JSObj)
    (h : (s.runEffects .compute input none).2 = false) :
    computeLoop (fuel + 1) s input changed old computed =
      .ok ((s.runEffects .compute input none).1, changed, old, computed) := by
  simp only [computeLoop]
  cases hE : s.runEffects .compute input none with
  | mk s' ran =>
    rw [hE] at h
    have h2 : ran = false := h
    subst h2
    simp only [hE, Bool.false_eq_true, if_false]

theorem C1_compute_loop_exit_witness :
    computeLoop 1 ({} : Store) none none none none =
      .ok (((({} : Store)).runEffects .compute none none).1, none, none,
        none) :=
  C1_compute_loop_exit 0 {} none none none none rfl
